import Mathlib

/-!
Shallow embedding of the `ratemyprof-api` repository
(`src/ratemyprof_api/professor.py` and `src/ratemyprof_api/ratemyprof_api.py`)
and proofs about the claims on its specification.

The JSON-like values the Python code manipulates are modelled by `JValue`;
Python runtime errors (`TypeError`, `AttributeError`, `KeyError`,
`ValueError`) are modelled by the `Except PyErr` monad.  Python numbers
(ints and floats) are modelled as exact rationals; the code performs no
float arithmetic beyond the single `float(...)` coercion, so no rounding
behaviour is observable in the claims.
-/

set_option maxRecDepth 100000

/-- A JSON-like Python value: the type of entries of the deserialised
Relay store and of all record fields. -/
inductive JValue where
  | null
  | bool (b : Bool)
  | num (q : ℚ)
  | str (s : String)
  | arr (elems : List JValue)
  | obj (fields : List (String × JValue))

mutual

/-- Structural boolean equality on `JValue` (deriving does not handle
the nested inductive). -/
def jvalBEq : JValue → JValue → Bool
  | .null, .null => true
  | .bool a, .bool b => a == b
  | .num a, .num b => a == b
  | .str a, .str b => a == b
  | .arr a, .arr b => jvalListBEq a b
  | .obj a, .obj b => jvalFieldsBEq a b
  | _, _ => false

/-- `jvalBEq` elementwise. -/
def jvalListBEq : List JValue → List JValue → Bool
  | [], [] => true
  | a :: as, b :: bs => jvalBEq a b && jvalListBEq as bs
  | _, _ => false

/-- `jvalBEq` fieldwise. -/
def jvalFieldsBEq : List (String × JValue) → List (String × JValue) → Bool
  | [], [] => true
  | (k, v) :: as, (k2, v2) :: bs => k == k2 && jvalBEq v v2 && jvalFieldsBEq as bs
  | _, _ => false

end

mutual

theorem jvalBEq_refl : ∀ v, jvalBEq v v = true
  | .null => rfl
  | .bool _ => by simp [jvalBEq]
  | .num _ => by simp [jvalBEq]
  | .str _ => by simp [jvalBEq]
  | .arr l => by simp [jvalBEq, jvalListBEq_refl l]
  | .obj l => by simp [jvalBEq, jvalFieldsBEq_refl l]

theorem jvalListBEq_refl : ∀ l, jvalListBEq l l = true
  | [] => rfl
  | v :: rest => by simp [jvalListBEq, jvalBEq_refl v, jvalListBEq_refl rest]

theorem jvalFieldsBEq_refl : ∀ l, jvalFieldsBEq l l = true
  | [] => rfl
  | (_, v) :: rest => by simp [jvalFieldsBEq, jvalBEq_refl v, jvalFieldsBEq_refl rest]

end

mutual

theorem jvalBEq_eq : ∀ a b, jvalBEq a b = true → a = b
  | .null, .null, _ => rfl
  | .bool _, .bool _, h => by simp [jvalBEq] at h; simp [h]
  | .num _, .num _, h => by simp [jvalBEq] at h; simp [h]
  | .str _, .str _, h => by simp [jvalBEq] at h; simp [h]
  | .arr a, .arr b, h => by
      simp only [jvalBEq] at h
      rw [jvalListBEq_eq a b h]
  | .obj a, .obj b, h => by
      simp only [jvalBEq] at h
      rw [jvalFieldsBEq_eq a b h]
  | .null, .bool _, h => by simp [jvalBEq] at h
  | .null, .num _, h => by simp [jvalBEq] at h
  | .null, .str _, h => by simp [jvalBEq] at h
  | .null, .arr _, h => by simp [jvalBEq] at h
  | .null, .obj _, h => by simp [jvalBEq] at h
  | .bool _, .null, h => by simp [jvalBEq] at h
  | .bool _, .num _, h => by simp [jvalBEq] at h
  | .bool _, .str _, h => by simp [jvalBEq] at h
  | .bool _, .arr _, h => by simp [jvalBEq] at h
  | .bool _, .obj _, h => by simp [jvalBEq] at h
  | .num _, .null, h => by simp [jvalBEq] at h
  | .num _, .bool _, h => by simp [jvalBEq] at h
  | .num _, .str _, h => by simp [jvalBEq] at h
  | .num _, .arr _, h => by simp [jvalBEq] at h
  | .num _, .obj _, h => by simp [jvalBEq] at h
  | .str _, .null, h => by simp [jvalBEq] at h
  | .str _, .bool _, h => by simp [jvalBEq] at h
  | .str _, .num _, h => by simp [jvalBEq] at h
  | .str _, .arr _, h => by simp [jvalBEq] at h
  | .str _, .obj _, h => by simp [jvalBEq] at h
  | .arr _, .null, h => by simp [jvalBEq] at h
  | .arr _, .bool _, h => by simp [jvalBEq] at h
  | .arr _, .num _, h => by simp [jvalBEq] at h
  | .arr _, .str _, h => by simp [jvalBEq] at h
  | .arr _, .obj _, h => by simp [jvalBEq] at h
  | .obj _, .null, h => by simp [jvalBEq] at h
  | .obj _, .bool _, h => by simp [jvalBEq] at h
  | .obj _, .num _, h => by simp [jvalBEq] at h
  | .obj _, .str _, h => by simp [jvalBEq] at h
  | .obj _, .arr _, h => by simp [jvalBEq] at h

theorem jvalListBEq_eq : ∀ a b, jvalListBEq a b = true → a = b
  | [], [], _ => rfl
  | x :: xs, y :: ys, h => by
      simp only [jvalListBEq, Bool.and_eq_true] at h
      rw [jvalBEq_eq x y h.1, jvalListBEq_eq xs ys h.2]
  | [], _ :: _, h => by simp [jvalListBEq] at h
  | _ :: _, [], h => by simp [jvalListBEq] at h

theorem jvalFieldsBEq_eq : ∀ a b, jvalFieldsBEq a b = true → a = b
  | [], [], _ => rfl
  | (k, v) :: xs, (k2, v2) :: ys, h => by
      simp only [jvalFieldsBEq, Bool.and_eq_true, beq_iff_eq] at h
      rw [h.1.1, jvalBEq_eq v v2 h.1.2, jvalFieldsBEq_eq xs ys h.2]
  | [], _ :: _, h => by simp [jvalFieldsBEq] at h
  | _ :: _, [], h => by simp [jvalFieldsBEq] at h

end

instance : DecidableEq JValue := fun a b =>
  if h : jvalBEq a b = true then .isTrue (jvalBEq_eq a b h)
  else .isFalse (fun e => h (e ▸ jvalBEq_refl a))

instance {ε α : Type} [DecidableEq ε] [DecidableEq α] : DecidableEq (Except ε α) :=
  fun a b =>
    match a, b with
    | .error x, .error y =>
        if h : x = y then .isTrue (h ▸ rfl)
        else .isFalse (fun e => h (Except.error.inj e))
    | .ok x, .ok y =>
        if h : x = y then .isTrue (h ▸ rfl)
        else .isFalse (fun e => h (Except.ok.inj e))
    | .error _, .ok _ => .isFalse Except.noConfusion
    | .ok _, .error _ => .isFalse Except.noConfusion

/-- The Python runtime errors that the modelled code can raise. -/
inductive PyErr where
  | typeError
  | attributeError
  | keyError
  | valueError
  deriving DecidableEq, Repr

/-- The deserialised Relay store: a Python `dict` mapping string keys to
JSON-like values, modelled as an association list in insertion order
(keys produced by `json.loads` are unique). -/
abbrev Store := List (String × JValue)

/-- Python truthiness (`bool(v)`) for JSON-like values: `None`, `False`,
`0`, `""`, `[]` and `{}` are falsy, everything else truthy. -/
def pyTruthy : JValue → Bool
  | .null => false
  | .bool b => b
  | .num q => q != 0
  | .str s => s != ""
  | .arr l => !l.isEmpty
  | .obj l => !l.isEmpty

/-- Whether a value is hashable in Python (usable as a `dict` key or
looked up with `dict.get`): lists and dicts are not. -/
def pyHashable : JValue → Bool
  | .arr _ => false
  | .obj _ => false
  | _ => true

/-- Python `==` between a JSON value and a string: only equal strings
compare equal (a string never equals a number, list, dict, etc.). -/
def pyEqStr (v : JValue) (s : String) : Bool :=
  match v with
  | .str t => t == s
  | _ => false

/-- Python `==` between two hashable JSON values, as used for `dict` key
comparison: `True == 1` and `False == 0` hold across `bool`/number, and
values of unrelated scalar types are unequal.  (Lists and dicts are
unhashable and never reach dict-key comparison in the modelled code.) -/
def pyKeyEq (a b : JValue) : Bool :=
  match a, b with
  | .null, .null => true
  | .bool x, .bool y => x == y
  | .bool x, .num q => (if x then (1 : ℚ) else 0) == q
  | .num q, .bool x => q == (if x then (1 : ℚ) else 0)
  | .num p, .num q => p == q
  | .str s, .str t => s == t
  | _, _ => false

/-- Substring test on character lists (models Python `needle in str`). -/
def hasSubstr (pat : List Char) : List Char → Bool
  | [] => pat.isEmpty
  | c :: rest => List.isPrefixOf pat (c :: rest) || hasSubstr pat rest

/-- Python `key in v` for a string `key`: key membership on a dict,
substring test on a string, element membership on a list, and a
`TypeError` on non-container values. -/
def pyContains (v : JValue) (key : String) : Except PyErr Bool :=
  match v with
  | .obj fields => .ok (fields.any (fun kv => kv.1 == key))
  | .str s => .ok (hasSubstr key.data s.data)
  | .arr l => .ok (l.any (fun e => pyEqStr e key))
  | _ => .error .typeError

/-- Python `v[key]` for a string `key`: dict lookup (`KeyError` when the
key is absent); a `TypeError` on strings, lists and scalars (string and
list indices must be integers). -/
def pySubscript (v : JValue) (key : String) : Except PyErr JValue :=
  match v with
  | .obj fields =>
      match fields.find? (fun kv => kv.1 == key) with
      | some kv => .ok kv.2
      | none => .error .keyError
  | _ => .error .typeError

/-- Python `v.get(key)`: `None` default on a dict, `AttributeError` on
any non-dict value (only dicts have `.get`). -/
def pyGet (v : JValue) (key : String) : Except PyErr JValue :=
  match v with
  | .obj fields =>
      .ok (((fields.find? (fun kv => kv.1 == key)).map (fun kv => kv.2)).getD .null)
  | _ => .error .attributeError

/-- Python `v.get(key, default)`: like `pyGet` with an explicit default. -/
def pyGetD (v : JValue) (key : String) (dflt : JValue) : Except PyErr JValue :=
  match v with
  | .obj fields =>
      .ok (((fields.find? (fun kv => kv.1 == key)).map (fun kv => kv.2)).getD dflt)
  | _ => .error .attributeError

/-- Python `for x in v`: elements of a list, one-character strings of a
string, keys of a dict; `TypeError` on scalars. -/
def pyIterate (v : JValue) : Except PyErr (List JValue) :=
  match v with
  | .arr l => .ok l
  | .str s => .ok (s.data.map (fun c => .str (String.mk [c])))
  | .obj fields => .ok (fields.map (fun kv => .str kv.1))
  | _ => .error .typeError

/-- Python `v < n` for an integer literal `n`: numeric comparison on
numbers and booleans (`True == 1`, `False == 0`), `TypeError` otherwise
(`str < int` is unsupported in Python 3). -/
def pyLtInt (v : JValue) (n : ℤ) : Except PyErr Bool :=
  match v with
  | .num q => .ok (q < (n : ℚ))
  | .bool b => .ok ((if b then (1 : ℚ) else 0) < (n : ℚ))
  | _ => .error .typeError

/-- Digit list to natural number (most significant first). -/
def digitsToNat (ds : List Char) : ℕ :=
  ds.foldl (fun a c => a * 10 + (c.toNat - 48)) 0

/-- The exact rational `±mant * 10^(±e) / 10^fracLen`, as denoted by a
decimal literal with `fracLen` fractional digits and a signed exponent;
built with `mkRat` so the value normalises by computation. -/
def ratOfParts (neg : Bool) (mant fracLen : ℕ) (eNeg : Bool) (e : ℕ) : ℚ :=
  let sn : ℤ := if neg then -(mant : ℤ) else (mant : ℤ)
  if eNeg then mkRat sn (10 ^ (fracLen + e))
  else if fracLen ≤ e then mkRat (sn * (10 : ℤ) ^ (e - fracLen)) 1
  else mkRat sn (10 ^ (fracLen - e))

/-- Models Python `float(s)` on a string: optional surrounding
whitespace, an optional sign, then digits with an optional fractional
part (at least one digit overall).  Exponents, `inf`/`nan` and
underscore separators — which never occur in the modelled data — are
not accepted; unparsable strings are a `ValueError` (`none`). -/
def pyFloatOfStr (s : String) : Option ℚ :=
  let cs := (s.data.dropWhile Char.isWhitespace).reverse.dropWhile Char.isWhitespace |>.reverse
  let (neg, cs1) :=
    match cs with
    | '-' :: r => (true, r)
    | '+' :: r => (false, r)
    | _ => (false, cs)
  let ds1 := cs1.takeWhile Char.isDigit
  let cs2 := cs1.drop ds1.length
  let (ds2, cs3) :=
    match cs2 with
    | '.' :: r => (r.takeWhile Char.isDigit, r.drop (r.takeWhile Char.isDigit).length)
    | _ => ([], cs2)
  if cs3.isEmpty && !(ds1.isEmpty && ds2.isEmpty) then
    some (ratOfParts neg (digitsToNat (ds1 ++ ds2)) ds2.length false 0)
  else
    none

/-- Python `float(v)`: identity on numbers, `0`/`1` on booleans, string
parsing via `pyFloatOfStr` (`ValueError` when unparsable), `TypeError`
on `None`, lists and dicts. -/
def pyFloat (v : JValue) : Except PyErr ℚ :=
  match v with
  | .num q => .ok q
  | .bool b => .ok (if b then 1 else 0)
  | .str s =>
      match pyFloatOfStr s with
      | some q => .ok q
      | none => .error .valueError
  | _ => .error .typeError

/-- Python `str(v)` as used by the f-string building a professor's full
name.  Strings are returned as-is (the only case the claims exercise);
scalar reprs follow Python, and the repr of numbers and containers is
approximated (integral numbers print exactly, and container contents
are elided). -/
def pyStr : JValue → String
  | .str s => s
  | .null => "None"
  | .bool true => "True"
  | .bool false => "False"
  | .num q => if q.den == 1 then toString q.num else toString q.num ++ "/" ++ toString q.den
  | .arr _ => "[...]"
  | .obj _ => "\x7b...\x7d"

/-- ASCII lowercasing of one character. -/
def charLower (c : Char) : Char :=
  if 65 ≤ c.toNat && c.toNat ≤ 90 then Char.ofNat (c.toNat + 32) else c

/-- Python `s.lower()` on a string (ASCII lowering, which agrees with
Python on the data in scope). -/
def pyLowerStr (s : String) : String :=
  String.mk (s.data.map charLower)

/-- Python `v.lower()`: defined on strings, `AttributeError` on
anything else. -/
def pyLower (v : JValue) : Except PyErr String :=
  match v with
  | .str s => .ok (pyLowerStr s)
  | _ => .error .attributeError

/-- Accumulator-style whitespace splitter: `cur` holds the reversed
characters of the token being read. -/
def splitWsAux (cur : List Char) : List Char → List String
  | [] => if cur.isEmpty then [] else [String.mk cur.reverse]
  | c :: rest =>
      if c.isWhitespace then
        if cur.isEmpty then splitWsAux [] rest
        else String.mk cur.reverse :: splitWsAux [] rest
      else splitWsAux (c :: cur) rest

/-- Python `s.split()` with no argument: split on whitespace runs,
discarding empty pieces. -/
def pySplitWs (s : String) : List String :=
  splitWsAux [] s.data

/-- Models `relay_data.get(key)` for a string key: the stored value, or
`None` when the key is absent. -/
def storeGetStr (store : Store) (k : String) : JValue :=
  (((store.find? (fun kv => kv.1 == k)).map (fun kv => kv.2))).getD .null

/-- Models `relay_data.get(x)` for an arbitrary value `x`: `TypeError`
on unhashable keys; non-string hashable keys are never present (keys of
a `json.loads` result are strings), so they yield `None`. -/
def storeGetJ (store : Store) (k : JValue) : Except PyErr JValue :=
  match k with
  | .str s => .ok (storeGetStr store s)
  | .arr _ => .error .typeError
  | .obj _ => .error .typeError
  | _ => .ok .null

/-- Models `relay_data.get(x, default)` with an explicit default. -/
def storeGetJD (store : Store) (k : JValue) (dflt : JValue) : Except PyErr JValue :=
  match k with
  | .str s => .ok (((store.find? (fun kv => kv.1 == s)).map (fun kv => kv.2)).getD dflt)
  | .arr _ => .error .typeError
  | .obj _ => .error .typeError
  | _ => .ok dflt

/-- Python `s.startswith(pre)` (structural, over the character lists). -/
def pyStartsWith (s pre : String) : Bool :=
  List.isPrefixOf pre.data s.data

/-- Code-point comparison `a <= b` of character lists, as Python compares
strings.  Used to model `list.sort(key=lambda p: p.name)`. -/
def lexLe : List Char → List Char → Bool
  | [], _ => true
  | _ :: _, [] => false
  | a :: as, b :: bs =>
      if a.toNat < b.toNat then true
      else if b.toNat < a.toNat then false
      else lexLe as bs

/-- Skip JSON whitespace. -/
def skipWs (cs : List Char) : List Char :=
  cs.dropWhile (fun c => c == ' ' || c == '\t' || c == '\n' || c == '\r')

/-- Hex digit value, if any. -/
def hexVal (c : Char) : Option ℕ :=
  if '0' ≤ c && c ≤ '9' then some (c.toNat - 48)
  else if 'a' ≤ c && c ≤ 'f' then some (c.toNat - 87)
  else if 'A' ≤ c && c ≤ 'F' then some (c.toNat - 55)
  else none

/-- Parse the body of a JSON string (after the opening quote), handling
the standard escapes; `\uXXXX` maps through `Char.ofNat` (surrogate
pairs, absent from the modelled data, are not combined).  Returns the
decoded characters and the rest of the input. -/
def parseStrBody : List Char → Option (List Char × List Char)
  | [] => none
  | '"' :: rest => some ([], rest)
  | '\\' :: e :: rest =>
      match e with
      | '"' => (parseStrBody rest).map (fun p => ('"' :: p.1, p.2))
      | '\\' => (parseStrBody rest).map (fun p => ('\\' :: p.1, p.2))
      | '/' => (parseStrBody rest).map (fun p => ('/' :: p.1, p.2))
      | 'b' => (parseStrBody rest).map (fun p => ('\x08' :: p.1, p.2))
      | 'f' => (parseStrBody rest).map (fun p => ('\x0c' :: p.1, p.2))
      | 'n' => (parseStrBody rest).map (fun p => ('\n' :: p.1, p.2))
      | 'r' => (parseStrBody rest).map (fun p => ('\r' :: p.1, p.2))
      | 't' => (parseStrBody rest).map (fun p => ('\t' :: p.1, p.2))
      | 'u' =>
          match rest with
          | a :: b :: c :: d :: r2 =>
              match hexVal a, hexVal b, hexVal c, hexVal d with
              | some ha, some hb, some hc, some hd =>
                  (parseStrBody r2).map
                    (fun p => (Char.ofNat (((ha * 16 + hb) * 16 + hc) * 16 + hd) :: p.1, p.2))
              | _, _, _, _ => none
          | _ => none
      | _ => none
  | c :: rest => (parseStrBody rest).map (fun p => (c :: p.1, p.2))

/-- Parse a JSON number per the JSON grammar (sign, integer part
without leading zeros, optional fraction, optional exponent) into an
exact rational. -/
def parseNum (cs : List Char) : Option (JValue × List Char) :=
  let (neg, cs1) :=
    match cs with
    | '-' :: r => (true, r)
    | _ => (false, cs)
  let ds := cs1.takeWhile Char.isDigit
  let cs2 := cs1.drop ds.length
  if ds.isEmpty then none
  else if ds.length > 1 && ds.headD '0' == '0' then none
  else
    let (fs, cs3) :=
      match cs2 with
      | '.' :: r => (r.takeWhile Char.isDigit, r.drop (r.takeWhile Char.isDigit).length)
      | _ => ([], cs2)
    if cs2 ≠ cs3 && fs.isEmpty then none
    else
      let (expOk, expNeg, es, cs4) :=
        match cs3 with
        | 'e' :: '-' :: r => (!(r.takeWhile Char.isDigit).isEmpty, true, r.takeWhile Char.isDigit, r.drop (r.takeWhile Char.isDigit).length)
        | 'e' :: '+' :: r => (!(r.takeWhile Char.isDigit).isEmpty, false, r.takeWhile Char.isDigit, r.drop (r.takeWhile Char.isDigit).length)
        | 'e' :: r => (!(r.takeWhile Char.isDigit).isEmpty, false, r.takeWhile Char.isDigit, r.drop (r.takeWhile Char.isDigit).length)
        | 'E' :: '-' :: r => (!(r.takeWhile Char.isDigit).isEmpty, true, r.takeWhile Char.isDigit, r.drop (r.takeWhile Char.isDigit).length)
        | 'E' :: '+' :: r => (!(r.takeWhile Char.isDigit).isEmpty, false, r.takeWhile Char.isDigit, r.drop (r.takeWhile Char.isDigit).length)
        | 'E' :: r => (!(r.takeWhile Char.isDigit).isEmpty, false, r.takeWhile Char.isDigit, r.drop (r.takeWhile Char.isDigit).length)
        | _ => (true, false, [], cs3)
      if !expOk then none
      else
        some (.num (ratOfParts neg (digitsToNat (ds ++ fs)) fs.length expNeg (digitsToNat es)), cs4)

mutual

/-- Fuel-indexed recursive-descent JSON value parser modelling
`json.loads`; returns the value and the unconsumed input. -/
def parseVal : ℕ → List Char → Option (JValue × List Char)
  | 0, _ => none
  | fuel + 1, cs =>
      match skipWs cs with
      | 'n' :: 'u' :: 'l' :: 'l' :: rest => some (.null, rest)
      | 't' :: 'r' :: 'u' :: 'e' :: rest => some (.bool true, rest)
      | 'f' :: 'a' :: 'l' :: 's' :: 'e' :: rest => some (.bool false, rest)
      | '"' :: rest => (parseStrBody rest).map (fun p => (.str (String.mk p.1), p.2))
      | '[' :: rest =>
          match skipWs rest with
          | ']' :: r => some (.arr [], r)
          | other => (parseElems fuel other).map (fun p => (.arr p.1, p.2))
      | '\x7b' :: rest =>
          match skipWs rest with
          | '\x7d' :: r => some (.obj [], r)
          | other => (parseFields fuel other).map (fun p => (.obj p.1, p.2))
      | other => parseNum other

/-- Comma-separated JSON array elements up to the closing bracket. -/
def parseElems : ℕ → List Char → Option (List JValue × List Char)
  | 0, _ => none
  | fuel + 1, cs => do
      let (v, r) ← parseVal fuel cs
      match skipWs r with
      | ',' :: r2 => do
          let (l, r3) ← parseElems fuel r2
          pure (v :: l, r3)
      | ']' :: r2 => pure ([v], r2)
      | _ => none

/-- Comma-separated JSON object members up to the closing brace. -/
def parseFields : ℕ → List Char → Option (List (String × JValue) × List Char)
  | 0, _ => none
  | fuel + 1, cs =>
      match skipWs cs with
      | '"' :: rest => do
          let (k, r) ← parseStrBody rest
          match skipWs r with
          | ':' :: r2 => do
              let (v, r3) ← parseVal fuel r2
              match skipWs r3 with
              | ',' :: r4 => do
                  let (l, r5) ← parseFields fuel r4
                  pure ((String.mk k, v) :: l, r5)
              | '\x7d' :: r4 => pure ([(String.mk k, v)], r4)
              | _ => none
          | _ => none
      | _ => none

end

/-- Models `json.loads`: parse one JSON value and require only trailing
whitespace after it; `none` models `json.JSONDecodeError`. -/
def jsonParse (s : String) : Option JValue :=
  match parseVal (2 * s.length + 2) s.data with
  | some (v, rest) => if (skipWs rest).isEmpty then some v else none
  | none => none

/-- The literal before the payload in the regex
`window\.__RELAY_STORE__ = (\x7b.*?\x7d);` of `_extract_relay_data`. -/
def relayLit : List Char := "window.__RELAY_STORE__ = ".data

/-- Scan for the first `\x7d;` and return everything up to and
including that `\x7d`: the lazy `.*?\x7d` of the regex followed by the
literal `;` (with `re.DOTALL`, so newlines are included). -/
def findCloseSemi : List Char → Option (List Char)
  | [] => none
  | [_] => none
  | c :: c2 :: rest =>
      if c = '\x7d' ∧ c2 = ';' then some [c]
      else (findCloseSemi (c2 :: rest)).map (fun t => c :: t)

/-- Whether the embedded-assignment pattern matches at the very start
of the text: the literal, an opening brace, and a later `\x7d;`; when
it does, the parenthesised group (brace to brace inclusive). -/
def relayAt (cs : List Char) : Option (List Char) :=
  if List.isPrefixOf (relayLit ++ ['\x7b']) cs then
    (findCloseSemi (cs.drop (relayLit.length + 1))).map (fun grp => '\x7b' :: grp)
  else none

/-- Models `re.search` for the embedded-assignment pattern: the group
at the first position where the whole pattern matches; `none` when no
position matches. -/
def findRelayPayload : List Char → Option (List Char)
  | [] => none
  | c :: rest =>
      match relayAt (c :: rest) with
      | some g => some g
      | none => findRelayPayload rest

/-- Models `_extract_relay_data`: regex-extract the embedded JSON
payload and parse it; an absent pattern or a JSON parse failure yields
the empty store.  (A successful parse of the brace-delimited group is
necessarily an object.) -/
def extract_relay_data (html : String) : Store :=
  match findRelayPayload html.data with
  | none => []
  | some grp =>
      match jsonParse (String.mk grp) with
      | some (.obj fields) => fields
      | _ => []

/-- A rating record, mirroring the dict literal built in
`_extract_ratings` (the Python key `"class"` is a Lean keyword and is
rendered `class_name`). -/
structure Rating where
  id : JValue
  class_name : JValue
  comment : JValue
  date : JValue
  helpful_rating : JValue
  clarity_rating : JValue
  difficulty_rating : JValue
  would_take_again : JValue
  grade : JValue
  tags : JValue
  is_for_online_class : JValue
  deriving DecidableEq

/-- The `Professor` record of `professor.py`.  Fields that the Python
constructor merely stores keep the dynamic `JValue` type; the computed
`overall_rating` is numeric by construction. -/
structure Professor where
  ratemyprof_id : JValue
  name : String
  first_name : JValue
  last_name : JValue
  num_of_ratings : JValue
  overall_rating : ℚ
  department : JValue
  would_take_again_percent : JValue
  difficulty : JValue
  ratings : List Rating
  deriving DecidableEq

/-- Models `Professor.__init__`: build the full name, compare
`num_of_ratings < 1` (which raises `TypeError` on a non-numeric count),
force `overall_rating` to `0` when the count is below one, otherwise
coerce the supplied value with `float(...)` when it is truthy and
default to `0` when it is falsy; the remaining fields start empty/zero. -/
def Professor.init (ratemyprof_id first_name last_name num_of_ratings overall_rating : JValue) :
    Except PyErr Professor := do
  let lt ← pyLtInt num_of_ratings 1
  let rating ←
    if lt then pure (0 : ℚ)
    else if pyTruthy overall_rating then pyFloat overall_rating
    else pure (0 : ℚ)
  pure
    { ratemyprof_id := ratemyprof_id
      name := pyStr first_name ++ " " ++ pyStr last_name
      first_name := first_name
      last_name := last_name
      num_of_ratings := num_of_ratings
      overall_rating := rating
      department := .str ""
      would_take_again_percent := .num 0
      difficulty := .num 0
      ratings := [] }

/-- Python `d[k] = v` on the id-to-professor dict: overwrite the value
in place when an equal key exists (the original key object is kept),
append otherwise. -/
def dictInsert (d : List (JValue × Professor)) (k : JValue) (p : Professor) :
    List (JValue × Professor) :=
  match d with
  | [] => [(k, p)]
  | kv :: rest => if pyKeyEq kv.1 k then (kv.1, p) :: rest else kv :: dictInsert rest k p

/-- Python `d[k] = v` including the hashability check on the key
(`TypeError` on a list or dict key). -/
def dictInsertE (d : List (JValue × Professor)) (k : JValue) (p : Professor) :
    Except PyErr (List (JValue × Professor)) :=
  if pyHashable k then .ok (dictInsert d k p) else .error .typeError

/-- Python `k in d` on the id-to-professor dict. -/
def pyInDict (d : List (JValue × Professor)) (k : JValue) : Except PyErr Bool :=
  if pyHashable k then .ok (d.any (fun kv => pyKeyEq kv.1 k)) else .error .typeError

/-- Lookup in the id-to-professor dict (`d[k]` after a membership
check). -/
def dictLookup (d : List (JValue × Professor)) (k : JValue) : Option Professor :=
  (d.find? (fun kv => pyKeyEq kv.1 k)).map (fun kv => kv.2)

/-- Models the find-first loops over `relay_data.items()` in both
`_process_professor_search_data` (search-connection node) and
`get_professor_by_id` (teacher detail node): the first entry whose key
starts with `pre`, which contains `"__typename"`, and whose
`"__typename"` equals `tname`. -/
def findConnection (store : Store) (pre tname : String) : Except PyErr (Option JValue) :=
  match store with
  | [] => .ok none
  | (k, v) :: rest =>
      if pyStartsWith k pre then do
        let has ← pyContains v "__typename"
        if has then do
          let t ← pySubscript v "__typename"
          if pyEqStr t tname then pure (some v)
          else findConnection rest pre tname
        else findConnection rest pre tname
      else findConnection rest pre tname

/-- Models the edge-to-teacher hops of the loop body of
`_process_professor_search_data`: resolve `edge → node → __ref →
record`, skipping (`none`) on a missing edge, missing `node` key, falsy
`__ref`, falsy record or wrong `__typename`.  A `node` value that is
not a dict raises `AttributeError` at `.get`. -/
def resolveTeacherRecord (store : Store) (ref : JValue) : Except PyErr (Option JValue) := do
  let edge ← storeGetJ store ref
  if !pyTruthy edge then pure none else do
  let hasNode ← pyContains edge "node"
  if !hasNode then pure none else do
  let nodeVal ← pySubscript edge "node"
  let nodeRef ← pyGet nodeVal "__ref"
  if !pyTruthy nodeRef then pure none else do
  let profData ← storeGetJ store nodeRef
  if !pyTruthy profData then pure none else do
  let hasTn ← pyContains profData "__typename"
  if !hasTn then pure none else do
  let tn ← pySubscript profData "__typename"
  if !pyEqStr tn "Teacher" then pure none else
  pure (some profData)

/-- Models the record-to-professor tail of the loop body of
`_process_professor_search_data`: look up the (unused) school data,
skip on a falsy `legacyId`, construct the `Professor` and attach
department, would-take-again percent and difficulty. -/
def teacherRecordToEntry (store : Store) (profData : JValue) :
    Except PyErr (Option (JValue × Professor)) := do
  let schoolField ← pyGetD profData "school" (.obj [])
  let schoolRef ← pyGet schoolField "__ref"
  let _schoolData ← storeGetJD store schoolRef (.obj [])
  let profId ← pyGet profData "legacyId"
  if !pyTruthy profId then pure none else do
  let fn ← pyGetD profData "firstName" (.str "")
  let ln ← pyGetD profData "lastName" (.str "")
  let nr ← pyGetD profData "numRatings" (.num 0)
  let ar ← pyGetD profData "avgRating" (.num 0)
  let p0 ← Professor.init profId fn ln nr ar
  let dept ← pyGetD profData "department" (.str "")
  let wta ← pyGetD profData "wouldTakeAgainPercent" (.num 0)
  let diff ← pyGetD profData "avgDifficulty" (.num 0)
  pure (some (profId, { p0 with department := dept, would_take_again_percent := wta, difficulty := diff }))

/-- One full iteration of the professor loop of
`_process_professor_search_data`. -/
def profEdgeStep (store : Store) (ref : JValue) : Except PyErr (Option (JValue × Professor)) := do
  match ← resolveTeacherRecord store ref with
  | none => pure none
  | some profData => teacherRecordToEntry store profData

/-- The professor loop of `_process_professor_search_data`:
`professors[prof_id] = professor` for each non-skipped edge, in edge
order, accumulating into `acc`. -/
def profLoop (store : Store) : List JValue → List (JValue × Professor) →
    Except PyErr (List (JValue × Professor))
  | [], acc => .ok acc
  | r :: rs, acc => do
      match ← profEdgeStep store r with
      | none => profLoop store rs acc
      | some (k, p) => do
          let acc2 ← dictInsertE acc k p
          profLoop store rs acc2

/-- Models `_process_professor_search_data`: find the
`client:root:newSearch:teachers*` connection with `__typename`
`TeacherSearchConnectionConnection`, read its `edges.__refs` list
(defaulting to the empty list), and run the professor loop. -/
def process_professor_search_data (store : Store) :
    Except PyErr (List (JValue × Professor)) := do
  let found ← findConnection store "client:root:newSearch:teachers" "TeacherSearchConnectionConnection"
  match found with
  | none => pure []
  | some conn =>
      if !pyTruthy conn then pure [] else do
      let hasEdges ← pyContains conn "edges"
      if !hasEdges then pure [] else do
      let edgesVal ← pySubscript conn "edges"
      let refsVal ← pyGetD edgesVal "__refs" (.arr [])
      let refs ← pyIterate refsVal
      profLoop store refs []

/-- One full iteration of the rating loop of `_extract_ratings`:
resolve `edge → node → __ref → record`, skip on missing links or a
`__typename` other than `Rating`, then build the rating dict with its
per-field defaults. -/
def ratingEdgeStep (store : Store) (ref : JValue) : Except PyErr (Option Rating) := do
  let edge ← storeGetJ store ref
  if !pyTruthy edge then pure none else do
  let hasNode ← pyContains edge "node"
  if !hasNode then pure none else do
  let nodeVal ← pySubscript edge "node"
  let nodeRef ← pyGet nodeVal "__ref"
  if !pyTruthy nodeRef then pure none else do
  let ratingData ← storeGetJ store nodeRef
  if !pyTruthy ratingData then pure none else do
  let hasTn ← pyContains ratingData "__typename"
  if !hasTn then pure none else do
  let tn ← pySubscript ratingData "__typename"
  if !pyEqStr tn "Rating" then pure none else do
  let rid ← pyGet ratingData "legacyId"
  let cls ← pyGetD ratingData "class" (.str "")
  let cmt ← pyGetD ratingData "comment" (.str "")
  let dt ← pyGetD ratingData "date" (.str "")
  let hr ← pyGetD ratingData "helpfulRating" (.num 0)
  let cr ← pyGetD ratingData "clarityRating" (.num 0)
  let dr ← pyGetD ratingData "difficultyRating" (.num 0)
  let wta ← pyGetD ratingData "wouldTakeAgain" (.num 0)
  let gr ← pyGetD ratingData "grade" (.str "")
  let tg ← pyGetD ratingData "ratingTags" (.str "")
  let ol ← pyGetD ratingData "isForOnlineClass" (.bool false)
  pure (some
    { id := rid, class_name := cls, comment := cmt, date := dt, helpful_rating := hr
      clarity_rating := cr, difficulty_rating := dr, would_take_again := wta
      grade := gr, tags := tg, is_for_online_class := ol })

/-- The rating loop of `_extract_ratings`: append one rating per
non-skipped edge, in edge order. -/
def ratingLoop (store : Store) : List JValue → Except PyErr (List Rating)
  | [] => .ok []
  | r :: rs => do
      match ← ratingEdgeStep store r with
      | none => ratingLoop store rs
      | some rt => do
          let l ← ratingLoop store rs
          pure (rt :: l)

/-- The connection-resolution prefix of `_extract_ratings`: follow
`prof_data["ratings(first:20)"].__ref` to the connection and read its
`edges.__refs` list; every early `return ratings` of the source (falsy
reference, falsy connection, missing `edges`) yields the empty
reference list. -/
def ratingConnectionRefs (store : Store) (profData : JValue) : Except PyErr (List JValue) := do
  let rfield ← pyGetD profData "ratings(first:20)" (.obj [])
  let ratingsRef ← pyGet rfield "__ref"
  if !pyTruthy ratingsRef then pure [] else do
  let conn ← storeGetJ store ratingsRef
  if !pyTruthy conn then pure [] else do
  let hasEdges ← pyContains conn "edges"
  if !hasEdges then pure [] else do
  let edgesVal ← pySubscript conn "edges"
  let refsVal ← pyGetD edgesVal "__refs" (.arr [])
  pyIterate refsVal

/-- Models `_extract_ratings`: resolve the `ratings(first:20)`
connection and run the rating loop over its edge references. -/
def extract_ratings (store : Store) (profData : JValue) : Except PyErr (List Rating) := do
  let refs ← ratingConnectionRefs store profData
  ratingLoop store refs

/-- The ascending full-name order of `prof_list.sort(key=lambda p:
p.name)`. -/
def profLe (a b : Professor) : Prop :=
  lexLe a.name.data b.name.data = true

instance : DecidableRel profLe := fun _ _ => instDecidableEqBool _ _

/-- Models `list(professors.values())` followed by
`prof_list.sort(key=lambda p: p.name)`: a stable ascending sort by the
full-name key under code-point comparison.  Python's sort is stable, so
any stable sort denotes it; a stable insertion sort is used. -/
def sortByName (l : List Professor) : List Professor :=
  l.insertionSort profLe

/-- An HTTP response as the engine observes it: status code and body
text.  The transport itself is the out-of-scope collaborator; each
fetching operation takes the response its single request would yield. -/
abbrev HttpResp := ℕ × String

/-- The mutable session state of `RateMyProfApi`: the id-to-professor
mapping plus the school metadata fields (the latter are never read by
the modelled operations). -/
structure Session where
  school_id : String
  professors : List (JValue × Professor)
  school_name : Option String
  school_city : Option String
  school_state : Option String

/-- Models `search_professor`: empty list on a non-200 response or an
empty extracted store, otherwise the extracted professors' values
sorted by full name.  (The query only feeds the request URL, which is
part of the out-of-scope transport.) -/
def search_professor (resp : HttpResp) : Except PyErr (List Professor) := do
  if resp.1 ≠ 200 then pure [] else
  let store := extract_relay_data resp.2
  if store.isEmpty then pure [] else do
  let profs ← process_professor_search_data store
  pure (sortByName (profs.map (fun kv => kv.2)))

/-- Models `get_professor_by_id`: return the cached record untouched
when the id is already a key of the session's mapping; otherwise fetch
the detail page, locate the `VGVhY2hlci0*` teacher node, build the
professor (skipping on a falsy `legacyId`), attach its ratings, and
insert it under its own `legacyId`. -/
def get_professor_by_id (s : Session) (resp : HttpResp) (pid : JValue) :
    Except PyErr (Option Professor × Session) := do
  let cached ← pyInDict s.professors pid
  if cached then pure (dictLookup s.professors pid, s)
  else if resp.1 ≠ 200 then pure (none, s)
  else
  let store := extract_relay_data resp.2
  if store.isEmpty then pure (none, s) else do
  let found ← findConnection store "VGVhY2hlci0" "Teacher"
  match found with
  | none => pure (none, s)
  | some profData =>
      if !pyTruthy profData then pure (none, s) else do
      let schoolField ← pyGetD profData "school" (.obj [])
      let schoolRef ← pyGet schoolField "__ref"
      let _schoolData ← storeGetJD store schoolRef (.obj [])
      let profId ← pyGet profData "legacyId"
      if !pyTruthy profId then pure (none, s) else do
      let fn ← pyGetD profData "firstName" (.str "")
      let ln ← pyGetD profData "lastName" (.str "")
      let nr ← pyGetD profData "numRatings" (.num 0)
      let ar ← pyGetD profData "avgRating" (.num 0)
      let p0 ← Professor.init profId fn ln nr ar
      let dept ← pyGetD profData "department" (.str "")
      let wta ← pyGetD profData "wouldTakeAgainPercent" (.num 0)
      let diff ← pyGetD profData "avgDifficulty" (.num 0)
      let rts ← extract_ratings store profData
      let professor :=
        { p0 with department := dept, would_take_again_percent := wta
                  difficulty := diff, ratings := rts }
      let profs2 ← dictInsertE s.professors profId professor
      pure (some professor, { s with professors := profs2 })

/-- Models the exact-match loop of `get_professor_by_name`: the first
professor whose lowercased first and last names equal the given
(already lowercased) tokens; `.lower()` raises on a non-string name. -/
def findExact (first last : String) : List Professor → Except PyErr (Option Professor)
  | [] => .ok none
  | p :: rest => do
      let f ← pyLower p.first_name
      let l ← pyLower p.last_name
      if f == first && l == last then pure (some p)
      else findExact first last rest

/-- Models `get_professor_by_name`: search, then resolve via
`get_professor_by_id` the first exact case-insensitive
first/last-token match when the query has at least two tokens,
falling back to the first search result; `None` when the search
produced nothing.  `detail` supplies the detail-page response the
resolving fetch would receive for a given id. -/
def get_professor_by_name (s : Session) (searchResp : HttpResp)
    (detail : JValue → HttpResp) (name : String) :
    Except PyErr (Option Professor × Session) := do
  let professors ← search_professor searchResp
  match professors with
  | [] => pure (none, s)
  | p0 :: rest =>
      let parts := pySplitWs (pyLowerStr name)
      if parts.length ≥ 2 then do
        let firstTok := parts.headD ""
        let lastTok := parts.getLastD ""
        match ← findExact firstTok lastTok (p0 :: rest) with
        | some p => get_professor_by_id s (detail p.ratemyprof_id) p.ratemyprof_id
        | none => get_professor_by_id s (detail p0.ratemyprof_id) p0.ratemyprof_id
      else get_professor_by_id s (detail p0.ratemyprof_id) p0.ratemyprof_id

/-- Fuel-indexed non-overlapping left-to-right substring replacement,
modelling Python `str.replace` (the fuel is an upper bound on the
number of steps; `length s` always suffices for the nonempty patterns
in scope). -/
def replaceSub (pat rep : List Char) : ℕ → List Char → List Char
  | _, [] => []
  | 0, s => s
  | fuel + 1, c :: rest =>
      if List.isPrefixOf pat (c :: rest) then
        rep ++ replaceSub pat rep fuel ((c :: rest).drop pat.length)
      else c :: replaceSub pat rep fuel rest

/-- Python `s.replace(pat, rep)` on strings. -/
def pyStrReplace (s pat rep : String) : String :=
  String.mk (replaceSub pat.data rep.data s.data.length s.data)

/-- Models the comment clean-up of the `write_ratings_to_csv` loop
body: when the rating's comment is truthy, replace every `"\n"` and
then every `"\r"` with a space before the row is written (`.replace`
raises on a truthy non-string comment; the `"comment" in rating` guard
is always true because the rating dict literal contains the key). -/
def csvPrepRating (r : Rating) : Except PyErr Rating :=
  if pyTruthy r.comment then
    match r.comment with
    | .str s => .ok { r with comment := .str (pyStrReplace (pyStrReplace s "\n" " ") "\r" " ") }
    | _ => .error .attributeError
  else .ok r

/-- Whether a value is a dict. -/
def isObjB : JValue → Bool
  | .obj _ => true
  | _ => false

/-- Whether a value is a string. -/
def isStrB : JValue → Bool
  | .str _ => true
  | _ => false

/-- Whether a value is a number or a boolean (the Python types on
which `< 1` and `float(...)` are defined without parsing). -/
def isNumBoolB : JValue → Bool
  | .num _ => true
  | .bool _ => true
  | _ => false

/-- Shape expected of a link or numeric field wherever it occurs:
`edges`, `node`, `school` and the `ratings(first:20)` connection must
be dicts, `__refs` a list of strings, `__ref` a string, `numRatings`
and `avgRating` numeric, and `legacyId` hashable.  Any other field is
unconstrained. -/
def shapeOK (k : String) (v : JValue) : Bool :=
  if k == "edges" || k == "node" || k == "school" || k == "ratings(first:20)" then isObjB v
  else if k == "__refs" then
    match v with
    | .arr l => l.all isStrB
    | _ => false
  else if k == "__ref" then isStrB v
  else if k == "numRatings" || k == "avgRating" then isNumBoolB v
  else if k == "legacyId" then pyHashable v
  else true

/-- Every immediate field of a dict has the expected link shape, and so
does every field of its dict-valued fields (the extraction walks at
most two field levels below a stored value, so two levels suffice). -/
def fieldsOK2 (fields : List (String × JValue)) : Bool :=
  fields.all (fun kv =>
    shapeOK kv.1 kv.2 &&
      match kv.2 with
      | .obj fs2 => fs2.all (fun kv2 => shapeOK kv2.1 kv2.2)
      | _ => true)

/-- Well-formedness of a store under which extraction cannot raise:
every entry is a dict whose link fields, two levels deep, have the
expected shapes. -/
def WFStore (store : Store) : Bool :=
  store.all (fun kv =>
    match kv.2 with
    | .obj fields => fieldsOK2 fields
    | _ => false)

/-- The selection policy of `get_professor_by_name` as the spec states
it, for professors whose name fields are strings: with at least two
query tokens, the first result whose first/last names case-
insensitively equal the first/last tokens, else the first result. -/
def specNameMatch (p : Professor) (f l : String) : Bool :=
  match p.first_name, p.last_name with
  | .str a, .str b => pyLowerStr a == f && pyLowerStr b == l
  | _, _ => false

/-- The candidate `get_professor_by_name` chooses from the search
results, per the spec's wording. -/
def specSelect (name : String) (profs : List Professor) : Option Professor :=
  match profs with
  | [] => none
  | p0 :: rest =>
      let parts := pySplitWs (pyLowerStr name)
      if parts.length ≥ 2 then
        match (p0 :: rest).find? (fun p => specNameMatch p (parts.headD "") (parts.getLastD "")) with
        | some p => some p
        | none => some p0
      else some p0

/-- The embedded-assignment pattern occurs in the page text: somewhere
the literal is followed by an opening brace and, later, by a closing
brace immediately followed by a semicolon. -/
def PatternPresent (cs : List Char) : Prop :=
  ∃ a b c, cs = a ++ relayLit ++ '\x7b' :: (b ++ '\x7d' :: ';' :: c)

/-- The per-edge outcome of rating extraction as a pure function:
`some` exactly when the edge resolves to a rating, `none` on a skip
(or on an edge whose resolution would raise). -/
def ratingStepResult (store : Store) (r : JValue) : Option Rating :=
  match ratingEdgeStep store r with
  | .ok o => o
  | .error _ => none

/-- The invariant of the session's professor mapping: every key maps
to a professor whose `ratemyprof_id` equals that key under Python `==`
(an overwrite keeps the original, `==`-equal key object, so Python's
own key equality is the right notion). -/
def KeyedById (d : List (JValue × Professor)) : Prop :=
  ∀ kv ∈ d, pyKeyEq kv.2.ratemyprof_id kv.1 = true

theorem except_bind_ok {ε α β : Type} (x : Except ε α) (f : α → Except ε β) (b : β) :
    (x >>= f = .ok b) ↔ ∃ a, x = .ok a ∧ f a = .ok b := by
  cases x <;> simp [Bind.bind, Except.bind]

theorem lexLe_total : ∀ a b : List Char, lexLe a b = true ∨ lexLe b a = true
  | [], _ => .inl rfl
  | _ :: _, [] => .inr rfl
  | a :: as, b :: bs => by
      rcases Nat.lt_trichotomy a.toNat b.toNat with h | h | h
      · left; simp [lexLe, h]
      · have h2 : ¬ a.toNat < b.toNat := by omega
        have h3 : ¬ b.toNat < a.toNat := by omega
        simpa [lexLe, h2, h3] using lexLe_total as bs
      · right; simp [lexLe, h, Nat.lt_asymm h]

theorem lexLe_trans : ∀ a b c : List Char,
    lexLe a b = true → lexLe b c = true → lexLe a c = true
  | [], _, _, _, _ => rfl
  | _ :: _, [], _, h, _ => by simp [lexLe] at h
  | _ :: _, _ :: _, [], _, h => by simp [lexLe] at h
  | a :: as, b :: bs, c :: cs, h1, h2 => by
      simp only [lexLe] at h1 h2 ⊢
      split_ifs at h1 h2 ⊢ <;>
        first
          | rfl
          | omega
          | (exact lexLe_trans as bs cs h1 h2)

instance : IsTotal Professor profLe :=
  ⟨fun a b => lexLe_total a.name.data b.name.data⟩

instance : IsTrans Professor profLe :=
  ⟨fun a b c => lexLe_trans a.name.data b.name.data c.name.data⟩

/-- Claim C2: for every constructor input with `num_of_ratings < 1`, the
constructed Professor has `overall_rating == 0` regardless of the
supplied rating value (even a non-numeric truthy one); for
`num_of_ratings >= 1` the supplied value is coerced with `float(...)`
when truthy and defaults to `0` when falsy or absent. -/
theorem claim_C2_overall_rating (id fn ln n r : JValue) :
    (pyLtInt n 1 = .ok true →
      (Professor.init id fn ln n r).map (fun p => p.overall_rating) = .ok 0) ∧
    (pyLtInt n 1 = .ok false → pyTruthy r = false →
      (Professor.init id fn ln n r).map (fun p => p.overall_rating) = .ok 0) ∧
    (pyLtInt n 1 = .ok false → pyTruthy r = true →
      (Professor.init id fn ln n r).map (fun p => p.overall_rating) = pyFloat r) := by
  refine ⟨fun h1 => ?_, fun h1 h2 => ?_, fun h1 h2 => ?_⟩
  · simp [Professor.init, h1, Bind.bind, Except.bind, Except.map, pure, Except.pure]
  · simp [Professor.init, h1, h2, Bind.bind, Except.bind, Except.map, pure, Except.pure]
  · cases hf : pyFloat r <;>
      simp [Professor.init, h1, h2, hf, Bind.bind, Except.bind, Except.map, pure, Except.pure]

/-- Witness for C2 at concrete inputs: a zero-count professor with a
truthy non-numeric rating gets rating `0`; with count `5`, a falsy
rating defaults to `0` and a numeric one is the `float` coercion. -/
theorem claim_C2_witness :
    (Professor.init (.num 1) (.str "A") (.str "B") (.num 0) (.str "abc")).map
        (fun p => p.overall_rating) = .ok 0 ∧
    (Professor.init (.num 1) (.str "A") (.str "B") (.num 5) .null).map
        (fun p => p.overall_rating) = .ok 0 ∧
    (Professor.init (.num 1) (.str "A") (.str "B") (.num 5) (.num (mkRat 7 2))).map
        (fun p => p.overall_rating) = pyFloat (.num (mkRat 7 2)) :=
  ⟨(claim_C2_overall_rating (.num 1) (.str "A") (.str "B") (.num 0) (.str "abc")).1 (by rfl),
   (claim_C2_overall_rating (.num 1) (.str "A") (.str "B") (.num 5) .null).2.1 (by rfl) (by rfl),
   (claim_C2_overall_rating (.num 1) (.str "A") (.str "B") (.num 5) (.num (mkRat 7 2))).2.2
     (by rfl) (by rfl)⟩

theorem replaceSub_single (p r : Char) :
    ∀ (s : List Char) (fuel : ℕ), s.length ≤ fuel →
      replaceSub [p] [r] fuel s = s.map (fun c => if c = p then r else c)
  | [], fuel, _ => by cases fuel <;> rfl
  | c :: rest, 0, h => by simp at h
  | c :: rest, fuel + 1, h => by
      have hr : rest.length ≤ fuel := by simpa using h
      by_cases hc : c = p
      · have hb : (p == c) = true := by simp [beq_iff_eq, hc.symm]
        simp [replaceSub, List.isPrefixOf, hb, hc, replaceSub_single p r rest fuel hr]
      · have hb : (p == c) = false := by
          simp [beq_iff_eq]
          exact fun e => hc e.symm
        simp [replaceSub, List.isPrefixOf, hb, hc, replaceSub_single p r rest fuel hr]

theorem pyStrReplace_char (p r : Char) (s : String) :
    pyStrReplace s (String.mk [p]) (String.mk [r]) =
      String.mk (s.data.map (fun c => if c = p then r else c)) := by
  unfold pyStrReplace
  exact congrArg String.mk (replaceSub_single p r s.data s.data.length (Nat.le_refl _))

/-- Claim C9: before a rating row is written, every newline and every
carriage return in a string comment is replaced by one space each. -/
theorem claim_C9_comment_normalized (rt : Rating) (s : String) (h : rt.comment = .str s) :
    csvPrepRating rt =
      .ok { rt with
        comment := JValue.str (String.mk (s.data.map (fun c => if c = '\n' ∨ c = '\r' then ' ' else c))) } := by
  by_cases hs : s = ""
  · subst hs
    have he : rt = { rt with comment := JValue.str "" } := by
      cases rt; simp_all
    simp [csvPrepRating, h, pyTruthy]
    exact he
  · have ht : pyTruthy rt.comment = true := by simp [h, pyTruthy, hs]
    have h1 : pyStrReplace s "\n" " " =
        String.mk (s.data.map (fun c => if c = '\n' then ' ' else c)) :=
      pyStrReplace_char '\n' ' ' s
    have h2 : pyStrReplace (pyStrReplace s "\n" " ") "\r" " " =
        String.mk (s.data.map (fun c => if c = '\n' ∨ c = '\r' then ' ' else c)) := by
      rw [h1, pyStrReplace_char '\r' ' '
        (String.mk (s.data.map (fun c => if c = '\n' then ' ' else c)))]
      congr 1
      rw [List.map_map]
      refine List.map_congr_left (fun c _ => ?_)
      by_cases hn : c = '\n' <;> by_cases hcr : c = '\r' <;> simp [hn, hcr]
    rw [csvPrepRating, ht]
    simp only [h, h2]
    simp

/-- The rating record of the spec's C9 example, before normalisation. -/
def c9rating : Rating :=
  { id := .num 1, class_name := .str "", comment := .str "Great class\r\nwould take again"
    date := .str "", helpful_rating := .num 0, clarity_rating := .num 0
    difficulty_rating := .num 0, would_take_again := .num 0, grade := .str ""
    tags := .str "", is_for_online_class := .bool false }

/-- Witness for C9 at the spec's example: the comment
`"Great class\r\nwould take again"` becomes
`"Great class  would take again"` (two spaces). -/
theorem claim_C9_witness :
    csvPrepRating c9rating =
      .ok { c9rating with comment := JValue.str "Great class  would take again" } := by
  have h := claim_C9_comment_normalized c9rating "Great class\r\nwould take again" rfl
  exact h.trans (by rfl)

/-- Claim C5: when the session's mapping already contains the id,
`get_professor_by_id` returns the stored record, consults no response
(the result is the same for every possible response, i.e. no fetch is
observable), and leaves the whole session — the professor mapping
included — unchanged; two consecutive calls return the identical
stored record. -/
theorem claim_C5_memoized_get (s : Session) (pid : JValue)
    (h : pyInDict s.professors pid = .ok true) (resp resp2 : HttpResp) :
    (∃ p, dictLookup s.professors pid = some p) ∧
    get_professor_by_id s resp pid = .ok (dictLookup s.professors pid, s) ∧
    get_professor_by_id s resp2 pid = .ok (dictLookup s.professors pid, s) := by
  have hex : ∃ p, dictLookup s.professors pid = some p := by
    have hh : pyHashable pid = true := by
      by_contra hc
      simp [pyInDict, hc] at h
    have hany : s.professors.any (fun kv => pyKeyEq kv.1 pid) = true := by
      simpa [pyInDict, hh] using h
    obtain ⟨kv, hmem, hkv⟩ := List.any_eq_true.mp hany
    have : (s.professors.find? (fun kv => pyKeyEq kv.1 pid)).isSome := by
      rw [List.find?_isSome]
      exact ⟨kv, hmem, hkv⟩
    obtain ⟨kv2, hkv2⟩ := Option.isSome_iff_exists.mp this
    exact ⟨kv2.2, by simp [dictLookup, hkv2]⟩
  refine ⟨hex, ?_, ?_⟩ <;>
    simp [get_professor_by_id, h, Bind.bind, Except.bind, pure, Except.pure]

/-- A concrete professor record for the C5 and C10 sessions. -/
def c5prof : Professor :=
  { ratemyprof_id := .num 7, name := "Ada Lovelace", first_name := .str "Ada"
    last_name := .str "Lovelace", num_of_ratings := .num 3, overall_rating := 4
    department := .str "", would_take_again_percent := .num 0, difficulty := .num 0
    ratings := [] }

/-- A session whose mapping already holds id `7`. -/
def c5session : Session :=
  { school_id := "1074", professors := [(.num 7, c5prof)]
    school_name := none, school_city := none, school_state := none }

/-- Witness for C5: with id `7` cached, both calls return the stored
record unchanged, for two different responses. -/
theorem claim_C5_witness :
    (∃ p, dictLookup c5session.professors (.num 7) = some p) ∧
    get_professor_by_id c5session (404, "") (.num 7) =
      .ok (dictLookup c5session.professors (.num 7), c5session) ∧
    get_professor_by_id c5session (200, "other") (.num 7) =
      .ok (dictLookup c5session.professors (.num 7), c5session) :=
  claim_C5_memoized_get c5session (.num 7) (by rfl) (404, "") (200, "other")

/-- Claim C7: `search_professor` returns the empty list on a fetch
failure (non-200 status) or a parse failure (empty extracted store);
any returned list is sorted ascending by full name; and on a 200
response the returned list is a permutation of the professors extracted
from the response body. -/
theorem claim_C7_search_sorted (resp : HttpResp) :
    (resp.1 ≠ 200 → search_professor resp = .ok []) ∧
    ((extract_relay_data resp.2).isEmpty = true → search_professor resp = .ok []) ∧
    (∀ l, search_professor resp = .ok l → l.Sorted profLe) ∧
    (∀ l d, resp.1 = 200 → search_professor resp = .ok l →
      process_professor_search_data (extract_relay_data resp.2) = .ok d →
      l.Perm (d.map (fun kv => kv.2))) := by
  have hmain : ∀ l, resp.1 = 200 → ¬(extract_relay_data resp.2).isEmpty = true →
      search_professor resp = .ok l →
      ∃ profs, process_professor_search_data (extract_relay_data resp.2) = .ok profs ∧
        l = sortByName (profs.map (fun kv => kv.2)) := by
    intro l h200 hemp hl
    rw [search_professor] at hl
    simp only [h200, if_neg (by simp : ¬(200 : ℕ) ≠ 200)] at hl
    rw [if_neg hemp] at hl
    cases hp : process_professor_search_data (extract_relay_data resp.2) with
    | error e => rw [hp] at hl; simp [Bind.bind, Except.bind] at hl
    | ok profs =>
        rw [hp] at hl
        simp [Bind.bind, Except.bind, pure, Except.pure] at hl
        exact ⟨profs, rfl, hl.symm⟩
  refine ⟨fun h => ?_, fun h => ?_, fun l hl => ?_, fun l d h200 hl hd => ?_⟩
  · simp [search_professor, h, pure, Except.pure]
  · by_cases h200 : resp.1 = 200
    · simp [search_professor, h200, h, pure, Except.pure]
    · simp [search_professor, h200, pure, Except.pure]
  · by_cases h200 : resp.1 = 200
    · by_cases hemp : (extract_relay_data resp.2).isEmpty = true
      · have : l = [] := by
          rw [search_professor] at hl
          simp [h200, hemp, pure, Except.pure] at hl
          exact hl
        simp [this, List.Sorted]
      · obtain ⟨profs, _, hsort⟩ := hmain l h200 hemp hl
        rw [hsort]
        exact List.sorted_insertionSort profLe _
    · have : l = [] := by
        rw [search_professor] at hl
        simp [h200, pure, Except.pure] at hl
        exact hl
      simp [this, List.Sorted]
  · by_cases hemp : (extract_relay_data resp.2).isEmpty = true
    · have hl0 : l = [] := by
        rw [search_professor] at hl
        simp [h200, hemp, pure, Except.pure] at hl
        exact hl
      have hst : extract_relay_data resp.2 = [] := by
        cases hst : extract_relay_data resp.2 with
        | nil => rfl
        | cons a b => rw [hst] at hemp; simp at hemp
      rw [hst] at hd
      have hd0 : d = [] := by
        have : process_professor_search_data ([] : Store) = .ok [] := rfl
        rw [this] at hd
        exact (Except.ok.inj hd).symm
      simp [hl0, hd0]
    · obtain ⟨profs, hp, hsort⟩ := hmain l h200 hemp hl
      rw [hp] at hd
      have : profs = d := Except.ok.inj hd
      rw [hsort, this]
      exact List.perm_insertionSort profLe _

/-- A search page embedding two professors, "Amy Zed" before
"Amy Adams" in store order (the spec's C7 example pair). -/
def c7html : String :=
  "window.__RELAY_STORE__ = \x7b\"client:root:newSearch:teachersA\": \x7b\"__typename\": \"TeacherSearchConnectionConnection\", \"edges\": \x7b\"__refs\": [\"e1\", \"e2\"]\x7d\x7d, \"e1\": \x7b\"node\": \x7b\"__ref\": \"t1\"\x7d\x7d, \"t1\": \x7b\"__typename\": \"Teacher\", \"legacyId\": 11, \"firstName\": \"Amy\", \"lastName\": \"Zed\", \"numRatings\": 2, \"avgRating\": 4\x7d, \"e2\": \x7b\"node\": \x7b\"__ref\": \"t2\"\x7d\x7d, \"t2\": \x7b\"__typename\": \"Teacher\", \"legacyId\": 22, \"firstName\": \"Amy\", \"lastName\": \"Adams\", \"numRatings\": 2, \"avgRating\": 4\x7d\x7d;"

/-- The professor "Amy Zed" as extracted from `c7html`. -/
def c7amyZed : Professor :=
  { ratemyprof_id := .num 11, name := "Amy Zed", first_name := .str "Amy"
    last_name := .str "Zed", num_of_ratings := .num 2, overall_rating := 4
    department := .str "", would_take_again_percent := .num 0, difficulty := .num 0
    ratings := [] }

/-- The professor "Amy Adams" as extracted from `c7html`. -/
def c7amyAdams : Professor :=
  { ratemyprof_id := .num 22, name := "Amy Adams", first_name := .str "Amy"
    last_name := .str "Adams", num_of_ratings := .num 2, overall_rating := 4
    department := .str "", would_take_again_percent := .num 0, difficulty := .num 0
    ratings := [] }

/-- Witness for C7: a non-200 response and a pattern-free body give the
empty list; on the two-professor page "Amy Adams" precedes "Amy Zed" in
the result, which is sorted and a permutation of the extracted values. -/
theorem claim_C7_witness :
    search_professor (404, "") = .ok [] ∧
    search_professor (200, "no store here") = .ok [] ∧
    search_professor (200, c7html) = .ok [c7amyAdams, c7amyZed] ∧
    List.Sorted profLe [c7amyAdams, c7amyZed] ∧
    [c7amyAdams, c7amyZed].Perm
      ([(JValue.num 11, c7amyZed), (JValue.num 22, c7amyAdams)].map (fun kv => kv.2)) := by
  have hs : search_professor (200, c7html) = .ok [c7amyAdams, c7amyZed] := by rfl
  have hp : process_professor_search_data (extract_relay_data c7html) =
      .ok [(JValue.num 11, c7amyZed), (JValue.num 22, c7amyAdams)] := by rfl
  refine ⟨(claim_C7_search_sorted (404, "")).1 (by decide),
    (claim_C7_search_sorted (200, "no store here")).2.1 (by rfl), hs, ?_, ?_⟩
  · exact (claim_C7_search_sorted (200, c7html)).2.2.1 _ hs
  · exact (claim_C7_search_sorted (200, c7html)).2.2.2 _ _ rfl hs hp

theorem ratingLoop_filterMap : ∀ (store : Store) (refs : List JValue) (l : List Rating),
    ratingLoop store refs = .ok l → l = refs.filterMap (ratingStepResult store)
  | _, [], _, h => by simpa using (Except.ok.inj h).symm
  | store, r :: rs, l, h => by
      rw [ratingLoop] at h
      cases hstep : ratingEdgeStep store r with
      | error e => rw [hstep] at h; simp [Bind.bind, Except.bind] at h
      | ok o =>
          rw [hstep] at h
          simp only [Bind.bind, Except.bind] at h
          cases o with
          | none =>
              have ih := ratingLoop_filterMap store rs l h
              simp [List.filterMap_cons, ratingStepResult, hstep, ih]
          | some rt =>
              cases hrest : ratingLoop store rs with
              | error e => rw [hrest] at h; simp at h
              | ok l2 =>
                  rw [hrest] at h
                  simp [pure, Except.pure] at h
                  have ih := ratingLoop_filterMap store rs l2 hrest
                  rw [← h]
                  simp [List.filterMap_cons, ratingStepResult, hstep, ih]

/-- Claim C4 (amended): rating extraction applies no page-size cap of
its own — it returns one rating per resolvable edge of the connection's
full reference list, in the order of that list (the `≤ 20` bound would
have to come from the upstream page, not from this code). -/
theorem claim_C4_amended_order (store : Store) (pd : JValue) (refs : List JValue)
    (l : List Rating) (h1 : ratingConnectionRefs store pd = .ok refs)
    (h2 : extract_ratings store pd = .ok l) :
    l = refs.filterMap (ratingStepResult store) := by
  rw [extract_ratings] at h2
  rw [h1] at h2
  simp only [Bind.bind, Except.bind] at h2
  exact ratingLoop_filterMap store refs l h2

/-- A teacher record whose rating connection holds 21 edges. -/
def c4prof : JValue := .obj [("ratings(first:20)", .obj [("__ref", .str "conn")])]

/-- A store with 21 resolvable rating edges in one connection. -/
def c4store : Store :=
  ("conn", .obj [("edges", .obj [("__refs",
      .arr ((List.range 21).map (fun i => .str ("r" ++ toString i))))])]) ::
  ((List.range 21).map (fun i =>
      ("r" ++ toString i, JValue.obj [("node", .obj [("__ref", .str ("n" ++ toString i))])]))) ++
  ((List.range 21).map (fun i =>
      ("n" ++ toString i, JValue.obj [("__typename", .str "Rating"),
                                      ("legacyId", .num i), ("comment", .str "c")])))

/-- Counterexample to C4 as stated: on a connection holding 21 edges
the extraction returns 21 ratings, exceeding the page size declared in
the `ratings(first:20)` field name. -/
theorem claim_C4_counterexample :
    (extract_ratings c4store c4prof).map List.length = .ok 21 ∧ ¬(21 ≤ 20) :=
  ⟨by rfl, by decide⟩

/-- A teacher record for the C4 witness. -/
def c4wprof : JValue := .obj [("ratings(first:20)", .obj [("__ref", .str "wconn")])]

/-- A two-edge rating store for the C4 witness. -/
def c4wstore : Store :=
  [("wconn", .obj [("edges", .obj [("__refs", .arr [.str "r0", .str "r1"])])]),
   ("r0", .obj [("node", .obj [("__ref", .str "n0")])]),
   ("n0", .obj [("__typename", .str "Rating"), ("legacyId", .num 1), ("comment", .str "hi")]),
   ("r1", .obj [("node", .obj [("__ref", .str "n1")])]),
   ("n1", .obj [("__typename", .str "Rating"), ("legacyId", .num 2), ("comment", .str "yo")])]

/-- The two ratings extracted from `c4wstore`, in edge order. -/
def c4wratings : List Rating :=
  [{ id := .num 1, class_name := .str "", comment := .str "hi", date := .str ""
     helpful_rating := .num 0, clarity_rating := .num 0, difficulty_rating := .num 0
     would_take_again := .num 0, grade := .str "", tags := .str ""
     is_for_online_class := .bool false },
   { id := .num 2, class_name := .str "", comment := .str "yo", date := .str ""
     helpful_rating := .num 0, clarity_rating := .num 0, difficulty_rating := .num 0
     would_take_again := .num 0, grade := .str "", tags := .str ""
     is_for_online_class := .bool false }]

/-- Witness for the amended C4: on the two-edge store the extraction
returns exactly the per-edge results in edge order. -/
theorem claim_C4_witness :
    ratingConnectionRefs c4wstore c4wprof = .ok [JValue.str "r0", JValue.str "r1"] ∧
    extract_ratings c4wstore c4wprof = .ok c4wratings ∧
    c4wratings = [JValue.str "r0", JValue.str "r1"].filterMap (ratingStepResult c4wstore) :=
  ⟨by rfl, by rfl, claim_C4_amended_order c4wstore c4wprof _ _ (by rfl) (by rfl)⟩

theorem fieldsOK2_spec {fs : List (String × JValue)} {kv : String × JValue}
    (h : fieldsOK2 fs = true) (hm : kv ∈ fs) :
    shapeOK kv.1 kv.2 = true ∧
      (∀ fs2, kv.2 = .obj fs2 → ∀ kv2 ∈ fs2, shapeOK kv2.1 kv2.2 = true) := by
  have hp := List.all_eq_true.mp h kv hm
  simp only [Bool.and_eq_true] at hp
  refine ⟨hp.1, fun fs2 he kv2 hm2 => ?_⟩
  have h2 := hp.2
  rw [he] at h2
  exact List.all_eq_true.mp h2 kv2 hm2

theorem find?_field_mem {fs : List (String × JValue)} {k : String} {kv : String × JValue}
    (h : fs.find? (fun kv => kv.1 == k) = some kv) : kv ∈ fs ∧ kv.1 = k := by
  refine ⟨List.mem_of_find?_eq_some h, ?_⟩
  have := List.find?_some h
  simpa [beq_iff_eq] using this

theorem exists_ok_of_isOk {α : Type} {x : Except PyErr α} (h : x.isOk = true) :
    ∃ a, x = .ok a := by
  cases x with
  | error e => simp [Except.isOk, Except.toBool] at h
  | ok a => exact ⟨a, rfl⟩

theorem init_ok_of_numlike (id fn ln nr ar : JValue)
    (hnr : isNumBoolB nr = true) (har : isNumBoolB ar = true) :
    ∃ p, Professor.init id fn ln nr ar = .ok p := by
  have hlt : ∃ c, pyLtInt nr 1 = .ok c := by
    cases nr <;> simp [isNumBoolB] at hnr <;> exact ⟨_, rfl⟩
  have hfl : ∃ q, pyFloat ar = .ok q := by
    cases ar <;> simp [isNumBoolB] at har <;> exact ⟨_, rfl⟩
  obtain ⟨c, hc⟩ := hlt
  obtain ⟨q, hq⟩ := hfl
  refine exists_ok_of_isOk ?_
  cases c <;> cases htr : pyTruthy ar <;>
    simp [Professor.init, hc, hq, htr, Bind.bind, Except.bind, pure, Except.pure,
      Except.isOk, Except.toBool]

theorem init_ratemyprof_id (id fn ln nr ar : JValue) (p : Professor)
    (h : Professor.init id fn ln nr ar = .ok p) : p.ratemyprof_id = id := by
  rw [Professor.init] at h
  cases hlt : pyLtInt nr 1 with
  | error e => rw [hlt] at h; simp [Bind.bind, Except.bind] at h
  | ok c =>
      rw [hlt] at h
      simp only [Bind.bind, Except.bind] at h
      cases c with
      | true =>
          simp only [if_true, pure, Except.pure, Except.ok.injEq] at h
          rw [← h]
      | false =>
          by_cases htr : pyTruthy ar = true
          · cases hf : pyFloat ar with
            | error e => simp [htr, hf] at h
            | ok q =>
                simp only [htr, hf, Bool.false_eq_true, if_false, if_true, pure,
                  Except.pure, Except.ok.injEq] at h
                rw [← h]
          · simp only [htr, Bool.false_eq_true, if_false, pure, Except.pure,
              Except.ok.injEq] at h
            rw [← h]

theorem getD_field_shape (fs : List (String × JValue)) (k : String) (d : JValue)
    (hfs : fieldsOK2 fs = true) (hd : shapeOK k d = true) :
    shapeOK k (((fs.find? (fun kv => kv.1 == k)).map (fun kv => kv.2)).getD d) = true := by
  cases hf : fs.find? (fun kv => kv.1 == k) with
  | none => exact hd
  | some kv =>
      obtain ⟨hm, hk⟩ := find?_field_mem hf
      have := (fieldsOK2_spec hfs hm).1
      rw [hk] at this
      simpa using this

theorem getD_field_fieldsOK2 (fs : List (String × JValue)) (k : String)
    (hfs : fieldsOK2 fs = true)
    (hk : isObjB (((fs.find? (fun kv => kv.1 == k)).map (fun kv => kv.2)).getD (.obj [])) = true) :
    ∃ fs2, (((fs.find? (fun kv => kv.1 == k)).map (fun kv => kv.2)).getD (.obj [])) = .obj fs2 ∧
      ∀ kv2 ∈ fs2, shapeOK kv2.1 kv2.2 = true := by
  cases hf : fs.find? (fun kv => kv.1 == k) with
  | none => exact ⟨[], rfl, by simp⟩
  | some kv =>
      obtain ⟨hm, _⟩ := find?_field_mem hf
      have h2 := (fieldsOK2_spec hfs hm).2
      rw [hf] at hk
      have hk2 : isObjB kv.2 = true := hk
      cases hv : kv.2 with
      | obj fs2 => exact ⟨fs2, hv, h2 fs2 hv⟩
      | null => rw [hv] at hk2; simp [isObjB] at hk2
      | bool b => rw [hv] at hk2; simp [isObjB] at hk2
      | num q => rw [hv] at hk2; simp [isObjB] at hk2
      | str s => rw [hv] at hk2; simp [isObjB] at hk2
      | arr l => rw [hv] at hk2; simp [isObjB] at hk2

theorem storeGetJD_ok_of_hashable (store : Store) (v d : JValue)
    (h : pyHashable v = true) : ∃ sd, storeGetJD store v d = .ok sd := by
  cases v with
  | arr l => simp [pyHashable] at h
  | obj l => simp [pyHashable] at h
  | null => exact ⟨_, rfl⟩
  | bool b => exact ⟨_, rfl⟩
  | num q => exact ⟨_, rfl⟩
  | str s => exact ⟨_, rfl⟩

/-- Claim C3 (amended): a resolved, shape-well-formed teacher record is
skipped exactly when its `legacyId` is falsy — `None`/absent but also
`0`, `""` or `False` — and otherwise becomes an entry keyed by that
`legacyId`, whose professor carries the same id.  (The code tests
`if not prof_id`, i.e. falsiness, not nullness.) -/
theorem claim_C3_legacyId_falsy_skip (store : Store) (fs : List (String × JValue))
    (hfs : fieldsOK2 fs = true) (lid : JValue)
    (hlid : pyGet (.obj fs) "legacyId" = .ok lid) :
    (pyTruthy lid = false → teacherRecordToEntry store (.obj fs) = .ok none) ∧
    (pyTruthy lid = true → ∃ p, teacherRecordToEntry store (.obj fs) = .ok (some (lid, p)) ∧
      p.ratemyprof_id = lid) := by
  have hlid2 : ((fs.find? (fun kv => kv.1 == "legacyId")).map (fun kv => kv.2)).getD .null = lid := by
    simpa [pyGet] using hlid
  have hschool : isObjB
      (((fs.find? (fun kv => kv.1 == "school")).map (fun kv => kv.2)).getD (.obj [])) = true :=
    getD_field_shape fs "school" (.obj []) hfs (by rfl)
  obtain ⟨fs2, hsf, hsh⟩ := getD_field_fieldsOK2 fs "school" hfs hschool
  have hrv : pyHashable
      (((fs2.find? (fun kv => kv.1 == "__ref")).map (fun kv => kv.2)).getD .null) = true := by
    cases hf2 : fs2.find? (fun kv => kv.1 == "__ref") with
    | none => rfl
    | some kv2 =>
        obtain ⟨hm2, hk2⟩ := find?_field_mem hf2
        have hs2 := hsh kv2 hm2
        rw [hk2] at hs2
        have hs3 : isStrB kv2.2 = true := hs2
        cases hv2 : kv2.2 <;> rw [hv2] at hs3 <;> simp [isStrB] at hs3
        case str s => simp [hv2, pyHashable]
  obtain ⟨sd, hsd⟩ := storeGetJD_ok_of_hashable store _ (.obj []) hrv
  have hnr : isNumBoolB
      (((fs.find? (fun kv => kv.1 == "numRatings")).map (fun kv => kv.2)).getD (.num 0)) = true :=
    getD_field_shape fs "numRatings" (.num 0) hfs (by rfl)
  have har : isNumBoolB
      (((fs.find? (fun kv => kv.1 == "avgRating")).map (fun kv => kv.2)).getD (.num 0)) = true :=
    getD_field_shape fs "avgRating" (.num 0) hfs (by rfl)
  obtain ⟨p0, hp0⟩ := init_ok_of_numlike lid
    (((fs.find? (fun kv => kv.1 == "firstName")).map (fun kv => kv.2)).getD (.str ""))
    (((fs.find? (fun kv => kv.1 == "lastName")).map (fun kv => kv.2)).getD (.str ""))
    _ _ hnr har
  refine ⟨fun hfalse => ?_, fun htrue => ?_⟩
  · simp [teacherRecordToEntry, Bind.bind, Except.bind, pyGetD, pyGet, hsf, hsd,
      hlid2, hfalse, pure, Except.pure]
  · simp only [teacherRecordToEntry, Bind.bind, Except.bind, pyGetD, pyGet, hsf, hsd,
      hlid2, htrue, Bool.not_true, Bool.false_eq_true, if_false, hp0, pure, Except.pure]
    exact ⟨_, rfl, init_ratemyprof_id _ _ _ _ _ p0 hp0⟩

/-- The fields of a well-typed teacher record whose `legacyId` is the
non-null falsy value `0`. -/
def c3fields : List (String × JValue) :=
  [("__typename", .str "Teacher"), ("legacyId", .num 0), ("firstName", .str "A"),
   ("lastName", .str "B"), ("numRatings", .num 3), ("avgRating", .num 4)]

/-- A search store whose only edge resolves to the `legacyId = 0`
teacher record. -/
def c3store : Store :=
  [("client:root:newSearch:teachersA",
    .obj [("__typename", .str "TeacherSearchConnectionConnection"),
          ("edges", .obj [("__refs", .arr [.str "e1"])])]),
   ("e1", .obj [("node", .obj [("__ref", .str "t1")])]),
   ("t1", .obj c3fields)]

/-- Counterexample to C3 as stated: the store's single edge resolves to
a well-typed teacher record whose `legacyId` is `0` — non-null — yet
the extraction's result mapping is empty: the skip test is falsiness,
not nullness. -/
theorem claim_C3_counterexample :
    resolveTeacherRecord c3store (.str "e1") = .ok (some (.obj c3fields)) ∧
    pyGet (.obj c3fields) "legacyId" = .ok (.num 0) ∧
    JValue.num 0 ≠ JValue.null ∧
    process_professor_search_data c3store = .ok [] :=
  ⟨by rfl, by rfl, fun h => JValue.noConfusion h, by rfl⟩

/-- The `c3fields` record with a truthy `legacyId` of `9`. -/
def c3fields2 : List (String × JValue) :=
  [("__typename", .str "Teacher"), ("legacyId", .num 9), ("firstName", .str "A"),
   ("lastName", .str "B"), ("numRatings", .num 3), ("avgRating", .num 4)]

/-- Witness for the amended C3: the falsy-`legacyId` record yields no
entry, and the same record with `legacyId = 9` yields an entry keyed
`9`. -/
theorem claim_C3_witness :
    teacherRecordToEntry c3store (.obj c3fields) = .ok none ∧
    (teacherRecordToEntry c3store (.obj c3fields2)).map (Option.map Prod.fst) =
      .ok (some (.num 9)) := by
  refine ⟨(claim_C3_legacyId_falsy_skip c3store c3fields (by rfl) (.num 0) (by rfl)).1 (by rfl), ?_⟩
  obtain ⟨p, hp, _⟩ :=
    (claim_C3_legacyId_falsy_skip c3store c3fields2 (by rfl) (.num 9) (by rfl)).2 (by rfl)
  rw [hp]
  rfl

/-- Canonical form of a Python dict key: booleans hash and compare
equal to their numeric values. -/
def pyCanon : JValue → JValue
  | .bool b => .num (if b then 1 else 0)
  | v => v

theorem pyKeyEq_eq_canon (a b : JValue) (ha : pyHashable a = true) :
    pyKeyEq a b = true ↔ pyCanon a = pyCanon b := by
  cases a <;> cases b <;>
    simp_all [pyKeyEq, pyCanon, pyHashable, beq_iff_eq] <;>
    (try constructor) <;> rename_i x y <;> revert x <;> try revert y
  all_goals intro x h
  all_goals cases x <;> simp_all

theorem pyKeyEq_hashable_left (a b : JValue) (h : pyKeyEq a b = true) :
    pyHashable a = true := by
  cases a <;> cases b <;> simp_all [pyKeyEq, pyHashable]

theorem pyKeyEq_hashable_right (a b : JValue) (h : pyKeyEq a b = true) :
    pyHashable b = true := by
  cases a <;> cases b <;> simp_all [pyKeyEq, pyHashable]

theorem pyKeyEq_refl_of_hashable (v : JValue) (h : pyHashable v = true) :
    pyKeyEq v v = true := (pyKeyEq_eq_canon v v h).mpr rfl

theorem pyKeyEq_trans (a b c : JValue) (h1 : pyKeyEq a b = true)
    (h2 : pyKeyEq b c = true) : pyKeyEq a c = true := by
  have ha := pyKeyEq_hashable_left a b h1
  have hb := pyKeyEq_hashable_left b c h2
  exact (pyKeyEq_eq_canon a c ha).mpr
    (((pyKeyEq_eq_canon a b ha).mp h1).trans ((pyKeyEq_eq_canon b c hb).mp h2))

theorem pyKeyEq_symm (a b : JValue) (h : pyKeyEq a b = true) : pyKeyEq b a = true := by
  have ha := pyKeyEq_hashable_left a b h
  have hb := pyKeyEq_hashable_right a b h
  exact (pyKeyEq_eq_canon b a hb).mpr ((pyKeyEq_eq_canon a b ha).mp h).symm

theorem dictInsert_keyed (d : List (JValue × Professor)) (k : JValue) (p : Professor)
    (hd : KeyedById d) (hp : pyKeyEq p.ratemyprof_id k = true) :
    KeyedById (dictInsert d k p) := by
  induction d with
  | nil =>
      intro kv hkv
      simp [dictInsert] at hkv
      rw [hkv]
      exact hp
  | cons hd2 tl ih =>
      intro kv hkv
      rw [dictInsert] at hkv
      by_cases he : pyKeyEq hd2.1 k = true
      · rw [if_pos he] at hkv
        cases hkv with
        | head => exact pyKeyEq_trans _ _ _ hp (pyKeyEq_symm _ _ he)
        | tail _ hm => exact hd _ (List.mem_cons_of_mem _ hm)
      · rw [if_neg he] at hkv
        cases hkv with
        | head => exact hd _ (List.mem_cons_self _ _)
        | tail _ hm =>
            exact ih (fun kv2 hkv2 => hd _ (List.mem_cons_of_mem _ hkv2)) _ hm

theorem teacherRecordToEntry_keyed (store : Store) (t k : JValue) (p : Professor)
    (h : teacherRecordToEntry store t = .ok (some (k, p))) : p.ratemyprof_id = k := by
  rw [teacherRecordToEntry] at h
  obtain ⟨sf, h1, h⟩ := (except_bind_ok _ _ _).mp h
  obtain ⟨sr, h2, h⟩ := (except_bind_ok _ _ _).mp h
  obtain ⟨sd, h3, h⟩ := (except_bind_ok _ _ _).mp h
  obtain ⟨pid, h4, h⟩ := (except_bind_ok _ _ _).mp h
  by_cases ht : pyTruthy pid = true
  · simp only [ht, Bool.not_true, Bool.false_eq_true, if_false] at h
    obtain ⟨fn, h5, h⟩ := (except_bind_ok _ _ _).mp h
    obtain ⟨ln, h6, h⟩ := (except_bind_ok _ _ _).mp h
    obtain ⟨nr, h7, h⟩ := (except_bind_ok _ _ _).mp h
    obtain ⟨ar, h8, h⟩ := (except_bind_ok _ _ _).mp h
    obtain ⟨p0, h9, h⟩ := (except_bind_ok _ _ _).mp h
    obtain ⟨dept, h10, h⟩ := (except_bind_ok _ _ _).mp h
    obtain ⟨wta, h11, h⟩ := (except_bind_ok _ _ _).mp h
    obtain ⟨diff, h12, h⟩ := (except_bind_ok _ _ _).mp h
    simp only [pure, Except.pure, Except.ok.injEq, Option.some.injEq, Prod.mk.injEq] at h
    obtain ⟨hk, hp⟩ := h
    have := init_ratemyprof_id _ _ _ _ _ p0 h9
    rw [← hp]
    rw [hk] at this
    exact this
  · simp only [ht, Bool.not_false, if_true, pure, Except.pure] at h
    cases h

theorem profEdgeStep_keyed (store : Store) (ref k : JValue) (p : Professor)
    (h : profEdgeStep store ref = .ok (some (k, p))) : p.ratemyprof_id = k := by
  rw [profEdgeStep] at h
  obtain ⟨o, h1, h2⟩ := (except_bind_ok _ _ _).mp h
  cases o with
  | none => simp [pure, Except.pure] at h2
  | some t => exact teacherRecordToEntry_keyed store t k p h2

theorem profLoop_keyed (store : Store) : ∀ (refs : List JValue)
    (acc d : List (JValue × Professor)), KeyedById acc →
    profLoop store refs acc = .ok d → KeyedById d
  | [], acc, d, hacc, h => by
      simp only [profLoop, Except.ok.injEq] at h
      rw [← h]
      exact hacc
  | r :: rs, acc, d, hacc, h => by
      rw [profLoop] at h
      obtain ⟨o, h1, h2⟩ := (except_bind_ok _ _ _).mp h
      cases o with
      | none => exact profLoop_keyed store rs acc d hacc h2
      | some kp =>
          obtain ⟨acc2, h3, h4⟩ := (except_bind_ok _ _ _).mp h2
          rw [dictInsertE] at h3
          by_cases hh : pyHashable kp.1 = true
          · rw [if_pos hh] at h3
            have hkey : pyKeyEq kp.2.ratemyprof_id kp.1 = true := by
              have := profEdgeStep_keyed store r kp.1 kp.2 (by rw [h1])
              rw [this]
              exact pyKeyEq_refl_of_hashable _ hh
            have hacc2 : KeyedById acc2 := by
              rw [← Except.ok.inj h3]
              exact dictInsert_keyed acc kp.1 kp.2 hacc hkey
            exact profLoop_keyed store rs acc2 d hacc2 h4
          · rw [if_neg hh] at h3
            cases h3

theorem keyedById_nil : KeyedById [] :=
  fun _ hkv => absurd hkv (List.not_mem_nil _)

/-- Claim C10: both operations that insert into the session's professor
mapping preserve the invariant that every key maps to a professor whose
`ratemyprof_id` equals (under Python `==`) that key — search extraction
builds only such mappings, and `get_professor_by_id` inserts the
fetched record under its own `legacyId` even when it differs from the
requested id. -/
theorem claim_C10_keyed_by_id :
    (∀ (store : Store) (d : List (JValue × Professor)),
      process_professor_search_data store = .ok d → KeyedById d) ∧
    (∀ (s : Session) (resp : HttpResp) (pid : JValue) (r : Option Professor) (s2 : Session),
      KeyedById s.professors → get_professor_by_id s resp pid = .ok (r, s2) →
      KeyedById s2.professors) := by
  constructor
  · intro store d h
    rw [process_professor_search_data] at h
    obtain ⟨found, h1, h⟩ := (except_bind_ok _ _ _).mp h
    cases found with
    | none =>
        simp only [pure, Except.pure, Except.ok.injEq] at h
        rw [← h]; exact keyedById_nil
    | some conn =>
        by_cases htr : pyTruthy conn = true
        · simp only [htr, Bool.not_true, Bool.false_eq_true, if_false] at h
          obtain ⟨hasEdges, h2, h⟩ := (except_bind_ok _ _ _).mp h
          cases hasEdges with
          | false =>
              simp only [Bool.not_false, if_true, pure, Except.pure, Except.ok.injEq] at h
              rw [← h]; exact keyedById_nil
          | true =>
              simp only [Bool.not_true, Bool.false_eq_true, if_false] at h
              obtain ⟨edgesVal, h3, h⟩ := (except_bind_ok _ _ _).mp h
              obtain ⟨refsVal, h4, h⟩ := (except_bind_ok _ _ _).mp h
              obtain ⟨refs, h5, h⟩ := (except_bind_ok _ _ _).mp h
              exact profLoop_keyed store refs [] d keyedById_nil h
        · simp only [Bool.not_eq_true] at htr
          simp only [htr, Bool.not_false, if_true, pure, Except.pure, Except.ok.injEq] at h
          rw [← h]; exact keyedById_nil
  · intro s resp pid r s2 hs h
    rw [get_professor_by_id] at h
    obtain ⟨cached, h1, h⟩ := (except_bind_ok _ _ _).mp h
    cases cached with
    | true =>
        simp only [if_true, pure, Except.pure, Except.ok.injEq, Prod.mk.injEq] at h
        rw [← h.2]; exact hs
    | false =>
        simp only [Bool.false_eq_true, if_false] at h
        by_cases hr : resp.1 ≠ 200
        · simp only [if_pos hr, pure, Except.pure, Except.ok.injEq, Prod.mk.injEq] at h
          rw [← h.2]; exact hs
        · simp only [if_neg hr] at h
          by_cases hemp : (extract_relay_data resp.2).isEmpty = true
          · simp only [hemp, if_true, pure, Except.pure, Except.ok.injEq, Prod.mk.injEq] at h
            rw [← h.2]; exact hs
          · simp only [hemp, Bool.false_eq_true, if_false] at h
            obtain ⟨found, h2, h⟩ := (except_bind_ok _ _ _).mp h
            cases found with
            | none =>
                simp only [pure, Except.pure, Except.ok.injEq, Prod.mk.injEq] at h
                rw [← h.2]; exact hs
            | some profData =>
                by_cases htr : pyTruthy profData = true
                · simp only [htr, Bool.not_true, Bool.false_eq_true, if_false] at h
                  obtain ⟨sf, h3, h⟩ := (except_bind_ok _ _ _).mp h
                  obtain ⟨sr, h4, h⟩ := (except_bind_ok _ _ _).mp h
                  obtain ⟨sd, h5, h⟩ := (except_bind_ok _ _ _).mp h
                  obtain ⟨pid2, h6, h⟩ := (except_bind_ok _ _ _).mp h
                  by_cases htr2 : pyTruthy pid2 = true
                  · simp only [htr2, Bool.not_true, Bool.false_eq_true, if_false] at h
                    obtain ⟨fn, h7, h⟩ := (except_bind_ok _ _ _).mp h
                    obtain ⟨ln, h8, h⟩ := (except_bind_ok _ _ _).mp h
                    obtain ⟨nr, h9, h⟩ := (except_bind_ok _ _ _).mp h
                    obtain ⟨ar, h10, h⟩ := (except_bind_ok _ _ _).mp h
                    obtain ⟨p0, h11, h⟩ := (except_bind_ok _ _ _).mp h
                    obtain ⟨dept, h12, h⟩ := (except_bind_ok _ _ _).mp h
                    obtain ⟨wta, h13, h⟩ := (except_bind_ok _ _ _).mp h
                    obtain ⟨diff, h14, h⟩ := (except_bind_ok _ _ _).mp h
                    obtain ⟨rts, h15, h⟩ := (except_bind_ok _ _ _).mp h
                    obtain ⟨profs2, h16, h⟩ := (except_bind_ok _ _ _).mp h
                    simp only [pure, Except.pure, Except.ok.injEq, Prod.mk.injEq] at h
                    rw [dictInsertE] at h16
                    by_cases hh : pyHashable pid2 = true
                    · rw [if_pos hh] at h16
                      have hid : pyKeyEq p0.ratemyprof_id pid2 = true := by
                        rw [init_ratemyprof_id _ _ _ _ _ p0 h11]
                        exact pyKeyEq_refl_of_hashable _ hh
                      rw [← h.2]
                      rw [← Except.ok.inj h16]
                      exact dictInsert_keyed s.professors pid2 _ hs hid
                    · rw [if_neg hh] at h16
                      cases h16
                  · simp only [Bool.not_eq_true] at htr2
                    simp [htr2, pure, Except.pure, Prod.ext_iff] at h
                    rw [← h.2]; exact hs
                · simp only [Bool.not_eq_true] at htr
                  simp [htr, pure, Except.pure, Prod.ext_iff] at h
                  rw [← h.2]; exact hs

/-- A store extracting one professor with `legacyId = 7` for the C10
witness. -/
def c10store : Store :=
  [("client:root:newSearch:teachersB",
    .obj [("__typename", .str "TeacherSearchConnectionConnection"),
          ("edges", .obj [("__refs", .arr [.str "e1"])])]),
   ("e1", .obj [("node", .obj [("__ref", .str "t1")])]),
   ("t1", .obj [("__typename", .str "Teacher"), ("legacyId", .num 7),
                ("firstName", .str "Ada"), ("lastName", .str "Lovelace"),
                ("numRatings", .num 3), ("avgRating", .num 4)])]

/-- A session holding the professor extracted from `c10store`. -/
def c10session : Session :=
  { school_id := "1074", professors := [(JValue.num 7, c5prof)], school_name := none
    school_city := none, school_state := none }

/-- Witness for C10: the mapping extracted from `c10store` is keyed by
id, and a cached `get_professor_by_id` call preserves the keyed
invariant of a session built from it. -/
theorem claim_C10_witness :
    KeyedById [(JValue.num 7, c5prof)] ∧ KeyedById c10session.professors := by
  have hproc : process_professor_search_data c10store =
      .ok [(JValue.num 7, c5prof)] := by rfl
  have h1 := claim_C10_keyed_by_id.1 c10store _ hproc
  have h2 := claim_C10_keyed_by_id.2 c10session (404, "") (JValue.num 7)
    (dictLookup [(JValue.num 7, c5prof)] (JValue.num 7)) c10session h1 (by rfl)
  exact ⟨h1, h2⟩

theorem findExact_eq_find? (f l : String) : ∀ (ps : List Professor),
    (∀ p ∈ ps, isStrB p.first_name = true ∧ isStrB p.last_name = true) →
    findExact f l ps = .ok (ps.find? (fun p => specNameMatch p f l))
  | [], _ => rfl
  | p :: rest, h => by
      obtain ⟨hf, hl⟩ := h p (List.mem_cons_self _ _)
      obtain ⟨a, ha⟩ : ∃ a, p.first_name = .str a := by
        cases hx : p.first_name <;> rw [hx] at hf <;> simp [isStrB] at hf
        case str s2 => exact ⟨s2, rfl⟩
      obtain ⟨b, hb⟩ : ∃ b, p.last_name = .str b := by
        cases hx : p.last_name <;> rw [hx] at hl <;> simp [isStrB] at hl
        case str s2 => exact ⟨s2, rfl⟩
      have ih := findExact_eq_find? f l rest
        (fun q hq => h q (List.mem_cons_of_mem _ hq))
      rw [findExact, List.find?]
      have hm : specNameMatch p f l = (pyLowerStr a == f && pyLowerStr b == l) := by
        rw [specNameMatch, ha, hb]
      by_cases hc : (pyLowerStr a == f && pyLowerStr b == l) = true
      · simp [pyLower, ha, hb, Bind.bind, Except.bind, hc, hm, pure, Except.pure]
      · simp only [hm, hc, Bool.false_eq_true]
        simp only [pyLower, ha, hb, Bind.bind, Except.bind]
        rw [if_neg (by simpa using hc)]
        exact ih

/-- Claim C6: `get_professor_by_name` runs the search and, when it
produced candidates with string name fields, resolves exactly the
candidate the spec's policy selects — with at least two query tokens,
the first result whose first/last names case-insensitively equal the
first/last tokens, else the first result — via `get_professor_by_id`;
with no candidates the result is absent and the session unchanged. -/
theorem claim_C6_name_selection (s : Session) (sr : HttpResp) (detail : JValue → HttpResp)
    (name : String) (profs : List Professor) (hs : search_professor sr = .ok profs)
    (hstr : ∀ p ∈ profs, isStrB p.first_name = true ∧ isStrB p.last_name = true) :
    get_professor_by_name s sr detail name =
      match specSelect name profs with
      | none => .ok (none, s)
      | some p => get_professor_by_id s (detail p.ratemyprof_id) p.ratemyprof_id := by
  rw [get_professor_by_name]
  rw [hs]
  simp only [Bind.bind, Except.bind]
  cases profs with
  | nil => simp [specSelect, pure, Except.pure]
  | cons p0 rest =>
      by_cases hlen : (pySplitWs (pyLowerStr name)).length ≥ 2
      · have hfe := findExact_eq_find? ((pySplitWs (pyLowerStr name)).headD "")
          ((pySplitWs (pyLowerStr name)).getLastD "") (p0 :: rest) hstr
        cases hfind : (p0 :: rest).find?
            (fun p => specNameMatch p ((pySplitWs (pyLowerStr name)).headD "")
              ((pySplitWs (pyLowerStr name)).getLastD "")) with
        | none =>
            rw [hfind] at hfe
            simp only [specSelect, hfe, hfind, if_pos hlen]
        | some p =>
            rw [hfind] at hfe
            simp only [specSelect, hfe, hfind, if_pos hlen]
      · simp only [specSelect, if_neg hlen]

/-- A search page embedding "Jon Smith" (id 11) and "John Smith"
(id 22) — the spec's C6 example pair. -/
def c6html : String :=
  "window.__RELAY_STORE__ = \x7b\"client:root:newSearch:teachersA\": \x7b\"__typename\": \"TeacherSearchConnectionConnection\", \"edges\": \x7b\"__refs\": [\"e1\", \"e2\"]\x7d\x7d, \"e1\": \x7b\"node\": \x7b\"__ref\": \"t1\"\x7d\x7d, \"t1\": \x7b\"__typename\": \"Teacher\", \"legacyId\": 11, \"firstName\": \"Jon\", \"lastName\": \"Smith\", \"numRatings\": 2, \"avgRating\": 4\x7d, \"e2\": \x7b\"node\": \x7b\"__ref\": \"t2\"\x7d\x7d, \"t2\": \x7b\"__typename\": \"Teacher\", \"legacyId\": 22, \"firstName\": \"John\", \"lastName\": \"Smith\", \"numRatings\": 2, \"avgRating\": 4\x7d\x7d;"

/-- The professor "John Smith" as extracted from `c6html`. -/
def c6john : Professor :=
  { ratemyprof_id := .num 22, name := "John Smith", first_name := .str "John"
    last_name := .str "Smith", num_of_ratings := .num 2, overall_rating := 4
    department := .str "", would_take_again_percent := .num 0, difficulty := .num 0
    ratings := [] }

/-- The professor "Jon Smith" as extracted from `c6html`. -/
def c6jon : Professor :=
  { ratemyprof_id := .num 11, name := "Jon Smith", first_name := .str "Jon"
    last_name := .str "Smith", num_of_ratings := .num 2, overall_rating := 4
    department := .str "", would_take_again_percent := .num 0, difficulty := .num 0
    ratings := [] }

/-- An empty session for the C6 witness. -/
def c6session : Session :=
  { school_id := "1074", professors := [], school_name := none
    school_city := none, school_state := none }

/-- A detail fetch that fails, for the C6 witness (the selection is
what is under test, not the resolution's own fetch). -/
def c6detail : JValue → HttpResp := fun _ => (404, "")

/-- Witness for C6 at the spec's example: with results Jon Smith and
John Smith, the query "John Smith" resolves the exact match's id 22 via
`get_professor_by_id`. -/
theorem claim_C6_witness :
    get_professor_by_name c6session (200, c6html) c6detail "John Smith" =
      get_professor_by_id c6session (c6detail (JValue.num 22)) (JValue.num 22) := by
  have h := claim_C6_name_selection c6session (200, c6html) c6detail "John Smith"
    [c6john, c6jon] (by rfl)
    (by intro p hp; fin_cases hp <;> exact ⟨rfl, rfl⟩)
  rw [h]
  rfl

theorem findCloseSemi_present : ∀ (cs t : List Char),
    findCloseSemi cs = some t → ∃ b c2, cs = b ++ '\x7d' :: ';' :: c2
  | [], t, h => by simp [findCloseSemi] at h
  | [c], t, h => by simp [findCloseSemi] at h
  | c :: c2 :: rest, t, h => by
      rw [findCloseSemi] at h
      by_cases hcc : c = '\x7d' ∧ c2 = ';'
      · exact ⟨[], rest, by rw [hcc.1, hcc.2]; rfl⟩
      · rw [if_neg hcc] at h
        obtain ⟨t2, h2, _⟩ := Option.map_eq_some'.mp h
        obtain ⟨b, cc, heq⟩ := findCloseSemi_present (c2 :: rest) t2 h2
        exact ⟨c :: b, cc, by rw [heq]; rfl⟩

theorem relayAt_present (cs g : List Char) (h : relayAt cs = some g) :
    ∃ b c2, cs = relayLit ++ '\x7b' :: (b ++ '\x7d' :: ';' :: c2) := by
  rw [relayAt] at h
  by_cases hp : List.isPrefixOf (relayLit ++ ['\x7b']) cs = true
  · rw [if_pos hp] at h
    obtain ⟨grp, hg, _⟩ := Option.map_eq_some'.mp h
    obtain ⟨b, c2, heq⟩ := findCloseSemi_present _ _ hg
    obtain ⟨t, ht⟩ := List.isPrefixOf_iff_prefix.mp hp
    have hlen : relayLit.length + 1 = (relayLit ++ ['\x7b']).length := by
      simp
    have hdrop : cs.drop (relayLit.length + 1) = t := by
      rw [← ht, hlen, List.drop_left]
    rw [hdrop] at heq
    refine ⟨b, c2, ?_⟩
    rw [← ht, heq]
    simp
  · rw [if_neg hp] at h
    cases h

theorem findRelayPayload_present : ∀ (cs g : List Char),
    findRelayPayload cs = some g → PatternPresent cs
  | [], g, h => by simp [findRelayPayload] at h
  | c :: rest, g, h => by
      rw [findRelayPayload] at h
      cases hra : relayAt (c :: rest) with
      | some g2 =>
          obtain ⟨b, c2, heq⟩ := relayAt_present (c :: rest) g2 hra
          exact ⟨[], b, c2, by rw [heq]; rfl⟩
      | none =>
          rw [hra] at h
          obtain ⟨a, b, c2, heq⟩ := findRelayPayload_present rest g h
          exact ⟨c :: a, b, c2, by rw [heq]; rfl⟩

/-- Claim C8: `extract_relay_data` is a total function — it cannot
raise — returning the empty store when the embedded-assignment pattern
is absent from the page, the empty store when the matched payload is
not valid JSON, and the parsed object's fields otherwise. -/
theorem claim_C8_relay_store (html : String) :
    (¬ PatternPresent html.data → extract_relay_data html = []) ∧
    (∀ g, findRelayPayload html.data = some g → jsonParse (String.mk g) = none →
      extract_relay_data html = []) ∧
    (∀ g fields, findRelayPayload html.data = some g →
      jsonParse (String.mk g) = some (.obj fields) → extract_relay_data html = fields) := by
  refine ⟨fun habs => ?_, fun g hg hj => ?_, fun g fields hg hj => ?_⟩
  · cases hf : findRelayPayload html.data with
    | some g => exact absurd (findRelayPayload_present _ _ hf) habs
    | none => simp [extract_relay_data, hf]
  · simp [extract_relay_data, hg, hj]
  · simp [extract_relay_data, hg, hj]

/-- Witness for C8: a pattern-free page yields the empty store, a
matched but non-JSON payload yields the empty store, and a valid
payload yields its parsed fields. -/
theorem claim_C8_witness :
    extract_relay_data "hello world" = [] ∧
    extract_relay_data "window.__RELAY_STORE__ = \x7bnotjson\x7d;" = [] ∧
    extract_relay_data "window.__RELAY_STORE__ = \x7b\"a\": 1\x7d;" = [("a", JValue.num 1)] := by
  refine ⟨(claim_C8_relay_store "hello world").1 ?_,
    (claim_C8_relay_store "window.__RELAY_STORE__ = \x7bnotjson\x7d;").2.1
      ("\x7bnotjson\x7d".data) (by rfl) (by rfl),
    (claim_C8_relay_store "window.__RELAY_STORE__ = \x7b\"a\": 1\x7d;").2.2
      ("\x7b\"a\": 1\x7d".data) [("a", JValue.num 1)] (by rfl) (by rfl)⟩
  intro hpres
  obtain ⟨a, b, c2, heq⟩ := hpres
  have hlen := congrArg List.length heq
  simp [relayLit] at hlen
  omega

theorem storeGet_good (store : Store) (h : WFStore store = true) (k : String) :
    storeGetStr store k = .null ∨
      ∃ fs, storeGetStr store k = .obj fs ∧ fieldsOK2 fs = true := by
  cases hf : store.find? (fun kv => kv.1 == k) with
  | none => exact .inl (by simp [storeGetStr, hf])
  | some kv =>
      have hm := List.mem_of_find?_eq_some hf
      have hh := List.all_eq_true.mp h kv hm
      cases hv : kv.2 with
      | obj fs =>
          refine .inr ⟨fs, by simp [storeGetStr, hf, hv], ?_⟩
          rw [hv] at hh
          simpa using hh
      | null => rw [hv] at hh; simp at hh
      | bool b => rw [hv] at hh; simp at hh
      | num q => rw [hv] at hh; simp at hh
      | str s => rw [hv] at hh; simp at hh
      | arr l => rw [hv] at hh; simp at hh

theorem contains_find (fs : List (String × JValue)) (k : String)
    (h : (fs.any fun kv => kv.1 == k) = true) :
    ∃ v, fs.find? (fun kv => kv.1 == k) = some (k, v) ∧ (k, v) ∈ fs := by
  have hsome : (fs.find? (fun kv => kv.1 == k)).isSome := by
    rw [List.find?_isSome]
    obtain ⟨kv, hm, hp⟩ := List.any_eq_true.mp h
    exact ⟨kv, hm, hp⟩
  obtain ⟨kv, hkv⟩ := Option.isSome_iff_exists.mp hsome
  obtain ⟨hm, hk⟩ := find?_field_mem hkv
  have hpair : (k, kv.2) = kv := by rw [← hk]
  refine ⟨kv.2, ?_, ?_⟩
  · rw [hpair]; exact hkv
  · rw [hpair]; exact hm

theorem ref_field_null_or_str (fs : List (String × JValue))
    (h2 : ∀ kv2 ∈ fs, shapeOK kv2.1 kv2.2 = true) :
    (((fs.find? (fun kv => kv.1 == "__ref")).map (fun kv => kv.2)).getD .null) = .null ∨
      isStrB (((fs.find? (fun kv => kv.1 == "__ref")).map (fun kv => kv.2)).getD .null) = true := by
  cases hf : fs.find? (fun kv => kv.1 == "__ref") with
  | none => exact .inl rfl
  | some kv =>
      obtain ⟨hm, hk⟩ := find?_field_mem hf
      have hs := h2 kv hm
      rw [hk] at hs
      right
      simpa using hs

theorem storeGetJ_good (store : Store) (h : WFStore store = true) (r : JValue)
    (hr : r = .null ∨ isStrB r = true) :
    ∃ v, storeGetJ store r = .ok v ∧
      (v = .null ∨ ∃ fs, v = .obj fs ∧ fieldsOK2 fs = true) := by
  rcases hr with hr | hr
  · exact ⟨.null, by rw [hr]; rfl, .inl rfl⟩
  · cases r with
    | str s =>
        rcases storeGet_good store h s with hg | ⟨fs, hg, hfs⟩
        · exact ⟨.null, by rw [storeGetJ, hg], .inl rfl⟩
        · exact ⟨.obj fs, by rw [storeGetJ, hg], .inr ⟨fs, rfl, hfs⟩⟩
    | null => simp [isStrB] at hr
    | bool b => simp [isStrB] at hr
    | num q => simp [isStrB] at hr
    | arr l => simp [isStrB] at hr
    | obj l => simp [isStrB] at hr

theorem resolveTeacherRecord_ok (store : Store) (h : WFStore store = true) (ref : JValue)
    (href : isStrB ref = true) :
    ∃ o, resolveTeacherRecord store ref = .ok o ∧
      (∀ t, o = some t → ∃ fs, t = .obj fs ∧ fieldsOK2 fs = true) := by
  obtain ⟨edge, hedge, hgood⟩ := storeGetJ_good store h ref (.inr href)
  rcases hgood with hnull | ⟨fs, hobj, hfs⟩
  · rw [hnull] at hedge
    exact ⟨none, by simp [resolveTeacherRecord, hedge, Bind.bind, Except.bind, pyTruthy,
      pure, Except.pure], by simp⟩
  · rw [hobj] at hedge
    by_cases htr : pyTruthy (.obj fs) = true
    swap
    · rw [Bool.not_eq_true] at htr
      exact ⟨none, by simp [resolveTeacherRecord, hedge, htr, Bind.bind, Except.bind,
        pure, Except.pure], by simp⟩
    by_cases hnode : (fs.any fun kv => kv.1 == "node") = true
    swap
    · rw [Bool.not_eq_true] at hnode
      exact ⟨none, by simp [resolveTeacherRecord, hedge, htr, hnode, Bind.bind, Except.bind,
        pyContains, pure, Except.pure], by simp⟩
    obtain ⟨nodeVal, hfind, hmem⟩ := contains_find fs "node" hnode
    have hnshape : isObjB nodeVal = true := (fieldsOK2_spec hfs hmem).1
    obtain ⟨fs2, hfs2⟩ : ∃ fs2, nodeVal = .obj fs2 := by
      cases hv : nodeVal <;> rw [hv] at hnshape <;> simp [isObjB] at hnshape
      case obj l => exact ⟨l, rfl⟩
    have hl2 : ∀ kv2 ∈ fs2, shapeOK kv2.1 kv2.2 = true :=
      (fieldsOK2_spec hfs hmem).2 fs2 hfs2
    have hrv := ref_field_null_or_str fs2 hl2
    rcases hrv with hrvn | hrvs
    · refine ⟨none, ?_, by simp⟩
      simp [resolveTeacherRecord, hedge, htr, hnode, hfind, hfs2, hrvn, Bind.bind,
        Except.bind, pyContains, pySubscript, pyGet, pyTruthy, pure, Except.pure]
    · by_cases hrt : pyTruthy
        (((fs2.find? (fun kv => kv.1 == "__ref")).map (fun kv => kv.2)).getD .null) = true
      swap
      · rw [Bool.not_eq_true] at hrt
        refine ⟨none, ?_, by simp⟩
        simp [resolveTeacherRecord, hedge, htr, hnode, hfind, hfs2, hrt, Bind.bind,
          Except.bind, pyContains, pySubscript, pyGet, pure, Except.pure]
      obtain ⟨profData, hpd, hpdgood⟩ := storeGetJ_good store h
        (((fs2.find? (fun kv => kv.1 == "__ref")).map (fun kv => kv.2)).getD .null)
        (.inr hrvs)
      rcases hpdgood with hpdn | ⟨fs3, hpdo, hfs3⟩
      · rw [hpdn] at hpd
        refine ⟨none, ?_, by simp⟩
        simp [resolveTeacherRecord, hedge, htr, hnode, hfind, hfs2, hrt, hpd, Bind.bind,
          Except.bind, pyContains, pySubscript, pyGet, pyTruthy, pure, Except.pure]
      rw [hpdo] at hpd
      by_cases htr3 : pyTruthy (.obj fs3) = true
      swap
      · rw [Bool.not_eq_true] at htr3
        refine ⟨none, ?_, by simp⟩
        simp [resolveTeacherRecord, hedge, htr, hnode, hfind, hfs2, hrt, hpd, htr3,
          Bind.bind, Except.bind, pyContains, pySubscript, pyGet, pure, Except.pure]
      by_cases htn : (fs3.any fun kv => kv.1 == "__typename") = true
      swap
      · rw [Bool.not_eq_true] at htn
        refine ⟨none, ?_, by simp⟩
        simp [resolveTeacherRecord, hedge, htr, hnode, hfind, hfs2, hrt, hpd, htr3, htn,
          Bind.bind, Except.bind, pyContains, pySubscript, pyGet, pure, Except.pure]
      obtain ⟨tnVal, htnf, _⟩ := contains_find fs3 "__typename" htn
      by_cases hteq : pyEqStr tnVal "Teacher" = true
      · refine ⟨some (.obj fs3), ?_, fun t ht => ⟨fs3, by injection ht with h2; rw [← h2], hfs3⟩⟩
        simp [resolveTeacherRecord, hedge, htr, hnode, hfind, hfs2, hrt, hpd, htr3, htn,
          htnf, hteq, Bind.bind, Except.bind, pyContains, pySubscript, pyGet, pure, Except.pure]
      · rw [Bool.not_eq_true] at hteq
        refine ⟨none, ?_, by simp⟩
        simp [resolveTeacherRecord, hedge, htr, hnode, hfind, hfs2, hrt, hpd, htr3, htn,
          htnf, hteq, Bind.bind, Except.bind, pyContains, pySubscript, pyGet, pure, Except.pure]

theorem teacherRecordToEntry_ok (store : Store) (fs : List (String × JValue))
    (hfs : fieldsOK2 fs = true) :
    ∃ r, teacherRecordToEntry store (.obj fs) = .ok r ∧
      ∀ k p, r = some (k, p) → pyHashable k = true := by
  have hschool : isObjB
      (((fs.find? (fun kv => kv.1 == "school")).map (fun kv => kv.2)).getD (.obj [])) = true :=
    getD_field_shape fs "school" (.obj []) hfs (by rfl)
  obtain ⟨fs2, hsf, hsh⟩ := getD_field_fieldsOK2 fs "school" hfs hschool
  have hrv := ref_field_null_or_str fs2 hsh
  have hrvhash : pyHashable
      (((fs2.find? (fun kv => kv.1 == "__ref")).map (fun kv => kv.2)).getD .null) = true := by
    rcases hrv with hn | hs
    · rw [hn]; rfl
    · cases hv : ((fs2.find? (fun kv => kv.1 == "__ref")).map (fun kv => kv.2)).getD .null <;>
        rw [hv] at hs <;> simp [isStrB] at hs
      case str s => rfl
  obtain ⟨sd, hsd⟩ := storeGetJD_ok_of_hashable store _ (.obj []) hrvhash
  have hlidhash : pyHashable
      (((fs.find? (fun kv => kv.1 == "legacyId")).map (fun kv => kv.2)).getD .null) = true := by
    cases hf : fs.find? (fun kv => kv.1 == "legacyId") with
    | none => rfl
    | some kv =>
        obtain ⟨hm, hk⟩ := find?_field_mem hf
        have hs := (fieldsOK2_spec hfs hm).1
        rw [hk] at hs
        exact hs
  by_cases hlt : pyTruthy
      (((fs.find? (fun kv => kv.1 == "legacyId")).map (fun kv => kv.2)).getD .null) = true
  swap
  · rw [Bool.not_eq_true] at hlt
    refine ⟨none, ?_, by simp⟩
    simp [teacherRecordToEntry, hsf, hsd, hlt, Bind.bind, Except.bind, pyGetD, pyGet,
      pure, Except.pure]
  · have hnr : isNumBoolB
        (((fs.find? (fun kv => kv.1 == "numRatings")).map (fun kv => kv.2)).getD (.num 0)) = true :=
      getD_field_shape fs "numRatings" (.num 0) hfs (by rfl)
    have har : isNumBoolB
        (((fs.find? (fun kv => kv.1 == "avgRating")).map (fun kv => kv.2)).getD (.num 0)) = true :=
      getD_field_shape fs "avgRating" (.num 0) hfs (by rfl)
    obtain ⟨p0, hp0⟩ := init_ok_of_numlike
      (((fs.find? (fun kv => kv.1 == "legacyId")).map (fun kv => kv.2)).getD .null)
      (((fs.find? (fun kv => kv.1 == "firstName")).map (fun kv => kv.2)).getD (.str ""))
      (((fs.find? (fun kv => kv.1 == "lastName")).map (fun kv => kv.2)).getD (.str ""))
      _ _ hnr har
    refine ⟨some ((((fs.find? (fun kv => kv.1 == "legacyId")).map (fun kv => kv.2)).getD .null),
      { p0 with
        department := (((fs.find? (fun kv => kv.1 == "department")).map (fun kv => kv.2)).getD (.str ""))
        would_take_again_percent :=
          (((fs.find? (fun kv => kv.1 == "wouldTakeAgainPercent")).map (fun kv => kv.2)).getD (.num 0))
        difficulty := (((fs.find? (fun kv => kv.1 == "avgDifficulty")).map (fun kv => kv.2)).getD (.num 0)) }),
      ?_, ?_⟩
    · simp [teacherRecordToEntry, hsf, hsd, hlt, hp0, Bind.bind, Except.bind, pyGetD, pyGet,
        pure, Except.pure]
    · intro k p hkp
      injection hkp with h2
      have hk : (((fs.find? (fun kv => kv.1 == "legacyId")).map (fun kv => kv.2)).getD .null) = k := by
        simpa using congrArg Prod.fst h2
      rw [← hk]
      exact hlidhash

theorem profEdgeStep_ok (store : Store) (h : WFStore store = true) (ref : JValue)
    (href : isStrB ref = true) :
    ∃ o, profEdgeStep store ref = .ok o ∧ ∀ k p, o = some (k, p) → pyHashable k = true := by
  obtain ⟨o1, ho1, hgood⟩ := resolveTeacherRecord_ok store h ref href
  cases o1 with
  | none =>
      exact ⟨none, by simp [profEdgeStep, ho1, Bind.bind, Except.bind, pure, Except.pure],
        by simp⟩
  | some t =>
      obtain ⟨fs, hteq, hfs⟩ := hgood t rfl
      subst hteq
      obtain ⟨r, hr, hh⟩ := teacherRecordToEntry_ok store fs hfs
      exact ⟨r, by simp [profEdgeStep, ho1, hr, Bind.bind, Except.bind], hh⟩

theorem ratingEdgeStep_ok (store : Store) (h : WFStore store = true) (ref : JValue)
    (href : isStrB ref = true) :
    ∃ o, ratingEdgeStep store ref = .ok o := by
  obtain ⟨edge, hedge, hgood⟩ := storeGetJ_good store h ref (.inr href)
  rcases hgood with hnull | ⟨fs, hobj, hfs⟩
  · rw [hnull] at hedge
    exact ⟨none, by simp [ratingEdgeStep, hedge, Bind.bind, Except.bind, pyTruthy,
      pure, Except.pure]⟩
  · rw [hobj] at hedge
    by_cases htr : pyTruthy (.obj fs) = true
    swap
    · rw [Bool.not_eq_true] at htr
      exact ⟨none, by simp [ratingEdgeStep, hedge, htr, Bind.bind, Except.bind,
        pure, Except.pure]⟩
    by_cases hnode : (fs.any fun kv => kv.1 == "node") = true
    swap
    · rw [Bool.not_eq_true] at hnode
      exact ⟨none, by simp [ratingEdgeStep, hedge, htr, hnode, Bind.bind, Except.bind,
        pyContains, pure, Except.pure]⟩
    obtain ⟨nodeVal, hfind, hmem⟩ := contains_find fs "node" hnode
    have hnshape : isObjB nodeVal = true := (fieldsOK2_spec hfs hmem).1
    obtain ⟨fs2, hfs2⟩ : ∃ fs2, nodeVal = .obj fs2 := by
      cases hv : nodeVal <;> rw [hv] at hnshape <;> simp [isObjB] at hnshape
      case obj l => exact ⟨l, rfl⟩
    have hl2 : ∀ kv2 ∈ fs2, shapeOK kv2.1 kv2.2 = true :=
      (fieldsOK2_spec hfs hmem).2 fs2 hfs2
    have hrv := ref_field_null_or_str fs2 hl2
    rcases hrv with hrvn | hrvs
    · refine ⟨none, ?_⟩
      simp [ratingEdgeStep, hedge, htr, hnode, hfind, hfs2, hrvn, Bind.bind,
        Except.bind, pyContains, pySubscript, pyGet, pyTruthy, pure, Except.pure]
    · by_cases hrt : pyTruthy
        (((fs2.find? (fun kv => kv.1 == "__ref")).map (fun kv => kv.2)).getD .null) = true
      swap
      · rw [Bool.not_eq_true] at hrt
        refine ⟨none, ?_⟩
        simp [ratingEdgeStep, hedge, htr, hnode, hfind, hfs2, hrt, Bind.bind,
          Except.bind, pyContains, pySubscript, pyGet, pure, Except.pure]
      obtain ⟨rd, hrd, hrdgood⟩ := storeGetJ_good store h
        (((fs2.find? (fun kv => kv.1 == "__ref")).map (fun kv => kv.2)).getD .null)
        (.inr hrvs)
      rcases hrdgood with hrdn | ⟨fs3, hrdo, hfs3⟩
      · rw [hrdn] at hrd
        refine ⟨none, ?_⟩
        simp [ratingEdgeStep, hedge, htr, hnode, hfind, hfs2, hrt, hrd, Bind.bind,
          Except.bind, pyContains, pySubscript, pyGet, pyTruthy, pure, Except.pure]
      rw [hrdo] at hrd
      by_cases htr3 : pyTruthy (.obj fs3) = true
      swap
      · rw [Bool.not_eq_true] at htr3
        refine ⟨none, ?_⟩
        simp [ratingEdgeStep, hedge, htr, hnode, hfind, hfs2, hrt, hrd, htr3,
          Bind.bind, Except.bind, pyContains, pySubscript, pyGet, pure, Except.pure]
      by_cases htn : (fs3.any fun kv => kv.1 == "__typename") = true
      swap
      · rw [Bool.not_eq_true] at htn
        refine ⟨none, ?_⟩
        simp [ratingEdgeStep, hedge, htr, hnode, hfind, hfs2, hrt, hrd, htr3, htn,
          Bind.bind, Except.bind, pyContains, pySubscript, pyGet, pure, Except.pure]
      obtain ⟨tnVal, htnf, _⟩ := contains_find fs3 "__typename" htn
      by_cases hteq : pyEqStr tnVal "Rating" = true
      · refine exists_ok_of_isOk ?_
        simp [ratingEdgeStep, hedge, htr, hnode, hfind, hfs2, hrt, hrd, htr3, htn,
          htnf, hteq, Bind.bind, Except.bind, pyContains, pySubscript, pyGet, pyGetD,
          pure, Except.pure, Except.isOk, Except.toBool]
      · rw [Bool.not_eq_true] at hteq
        refine ⟨none, ?_⟩
        simp [ratingEdgeStep, hedge, htr, hnode, hfind, hfs2, hrt, hrd, htr3, htn,
          htnf, hteq, Bind.bind, Except.bind, pyContains, pySubscript, pyGet, pure, Except.pure]

theorem profLoop_ok (store : Store) (h : WFStore store = true) :
    ∀ (refs : List JValue) (acc : List (JValue × Professor)),
    (∀ r ∈ refs, isStrB r = true) → ∃ d, profLoop store refs acc = .ok d
  | [], acc, _ => ⟨acc, rfl⟩
  | r :: rs, acc, hall => by
      obtain ⟨o, ho, hh⟩ := profEdgeStep_ok store h r (hall r (List.mem_cons_self _ _))
      have htail : ∀ x ∈ rs, isStrB x = true := fun x hx => hall x (List.mem_cons_of_mem _ hx)
      cases o with
      | none =>
          obtain ⟨d, hd⟩ := profLoop_ok store h rs acc htail
          exact ⟨d, by simp [profLoop, ho, hd, Bind.bind, Except.bind]⟩
      | some kp =>
          obtain ⟨k, p⟩ := kp
          have hh2 : pyHashable k = true := hh k p rfl
          obtain ⟨d, hd⟩ := profLoop_ok store h rs (dictInsert acc k p) htail
          exact ⟨d, by simp [profLoop, ho, hd, dictInsertE, hh2, Bind.bind, Except.bind]⟩

theorem ratingLoop_ok (store : Store) (h : WFStore store = true) :
    ∀ (refs : List JValue), (∀ r ∈ refs, isStrB r = true) →
    ∃ l, ratingLoop store refs = .ok l
  | [], _ => ⟨[], rfl⟩
  | r :: rs, hall => by
      obtain ⟨o, ho⟩ := ratingEdgeStep_ok store h r (hall r (List.mem_cons_self _ _))
      obtain ⟨l, hl⟩ := ratingLoop_ok store h rs
        (fun x hx => hall x (List.mem_cons_of_mem _ hx))
      cases o with
      | none => exact ⟨l, by simp [ratingLoop, ho, hl, Bind.bind, Except.bind]⟩
      | some rt =>
          exact ⟨rt :: l, by simp [ratingLoop, ho, hl, Bind.bind, Except.bind,
            pure, Except.pure]⟩

theorem findConnection_ok (pre tname : String) : ∀ (store : Store), WFStore store = true →
    ∃ r, findConnection store pre tname = .ok r ∧
      ∀ c, r = some c → ∃ fs, c = .obj fs ∧ fieldsOK2 fs = true
  | [], _ => ⟨none, rfl, by simp⟩
  | kv :: rest, h => by
      obtain ⟨k, v⟩ := kv
      have hh := List.all_eq_true.mp h (k, v) (List.mem_cons_self _ _)
      have ht : WFStore rest = true :=
        List.all_eq_true.mpr (fun x hx => List.all_eq_true.mp h x (List.mem_cons_of_mem _ hx))
      obtain ⟨fs, hveq, hfs⟩ : ∃ fs, v = .obj fs ∧ fieldsOK2 fs = true := by
        cases hv : v <;> rw [hv] at hh <;> simp at hh
        case obj l => exact ⟨l, rfl, by simpa using hh⟩
      subst hveq
      by_cases hsw : pyStartsWith k pre = true
      swap
      · rw [Bool.not_eq_true] at hsw
        obtain ⟨r, hr, hgood⟩ := findConnection_ok pre tname rest ht
        exact ⟨r, by simp [findConnection, hsw, hr], hgood⟩
      by_cases htn : (fs.any fun kv => kv.1 == "__typename") = true
      swap
      · rw [Bool.not_eq_true] at htn
        obtain ⟨r, hr, hgood⟩ := findConnection_ok pre tname rest ht
        exact ⟨r, by simp [findConnection, hsw, htn, pyContains, hr, Bind.bind, Except.bind],
          hgood⟩
      obtain ⟨tnVal, htnf, _⟩ := contains_find fs "__typename" htn
      by_cases hteq : pyEqStr tnVal tname = true
      · refine ⟨some (.obj fs), ?_, fun c hc => ⟨fs, by injection hc with h2; rw [← h2], hfs⟩⟩
        simp [findConnection, hsw, htn, htnf, hteq, pyContains, pySubscript, Bind.bind,
          Except.bind, pure, Except.pure]
      · rw [Bool.not_eq_true] at hteq
        obtain ⟨r, hr, hgood⟩ := findConnection_ok pre tname rest ht
        exact ⟨r, by simp [findConnection, hsw, htn, htnf, hteq, pyContains, pySubscript,
          hr, Bind.bind, Except.bind], hgood⟩

theorem refs_field_good (fse : List (String × JValue))
    (hl2 : ∀ kv2 ∈ fse, shapeOK kv2.1 kv2.2 = true) :
    ∃ elems, (((fse.find? (fun kv => kv.1 == "__refs")).map (fun kv => kv.2)).getD (.arr [])) =
        .arr elems ∧ ∀ e ∈ elems, isStrB e = true := by
  cases hf : fse.find? (fun kv => kv.1 == "__refs") with
  | none => exact ⟨[], rfl, by simp⟩
  | some kv =>
      obtain ⟨hm, hk⟩ := find?_field_mem hf
      have hs := hl2 kv hm
      rw [hk] at hs
      have hs2 : (match kv.2 with
          | JValue.arr l => l.all isStrB
          | _ => false) = true := hs
      cases hv : kv.2 <;> rw [hv] at hs2 <;> simp at hs2
      case arr l => exact ⟨l, hv, fun e he => hs2 e he⟩

theorem process_search_ok (store : Store) (h : WFStore store = true) :
    ∃ d, process_professor_search_data store = .ok d := by
  obtain ⟨found, hf, hgood⟩ := findConnection_ok "client:root:newSearch:teachers"
    "TeacherSearchConnectionConnection" store h
  cases found with
  | none =>
      exact ⟨[], by simp [process_professor_search_data, hf, Bind.bind, Except.bind,
        pure, Except.pure]⟩
  | some conn =>
      obtain ⟨fs, hceq, hcfs⟩ := hgood conn rfl
      subst hceq
      by_cases htr : pyTruthy (.obj fs) = true
      swap
      · rw [Bool.not_eq_true] at htr
        exact ⟨[], by simp [process_professor_search_data, hf, htr, Bind.bind, Except.bind,
          pure, Except.pure]⟩
      by_cases hedges : (fs.any fun kv => kv.1 == "edges") = true
      swap
      · rw [Bool.not_eq_true] at hedges
        exact ⟨[], by simp [process_professor_search_data, hf, htr, hedges, pyContains,
          Bind.bind, Except.bind, pure, Except.pure]⟩
      obtain ⟨edgesVal, hfind, hmem⟩ := contains_find fs "edges" hedges
      have hshape : isObjB edgesVal = true := (fieldsOK2_spec hcfs hmem).1
      obtain ⟨fse, hfse⟩ : ∃ fse, edgesVal = .obj fse := by
        cases hv : edgesVal <;> rw [hv] at hshape <;> simp [isObjB] at hshape
        case obj l => exact ⟨l, rfl⟩
      have hl2 : ∀ kv2 ∈ fse, shapeOK kv2.1 kv2.2 = true :=
        (fieldsOK2_spec hcfs hmem).2 fse hfse
      obtain ⟨elems, helems, hstr⟩ := refs_field_good fse hl2
      obtain ⟨d, hd⟩ := profLoop_ok store h elems [] hstr
      refine ⟨d, ?_⟩
      simp [process_professor_search_data, hf, htr, hedges, hfind, hfse, helems, hd,
        pyContains, pySubscript, pyGetD, pyIterate, Bind.bind, Except.bind]

theorem extract_ratings_ok (store : Store) (h : WFStore store = true)
    (pd : List (String × JValue)) (hpd : fieldsOK2 pd = true) :
    ∃ l, extract_ratings store (.obj pd) = .ok l := by
  have hrc : isObjB (((pd.find? (fun kv => kv.1 == "ratings(first:20)")).map
      (fun kv => kv.2)).getD (.obj [])) = true :=
    getD_field_shape pd "ratings(first:20)" (.obj []) hpd (by rfl)
  obtain ⟨fsr, hsf, hshr⟩ := getD_field_fieldsOK2 pd "ratings(first:20)" hpd hrc
  have hrv := ref_field_null_or_str fsr hshr
  rcases hrv with hn | hs
  · exact ⟨[], by simp [extract_ratings, ratingConnectionRefs, hsf, hn, pyGetD, pyGet,
      pyTruthy, Bind.bind, Except.bind, pure, Except.pure, ratingLoop]⟩
  · by_cases hrt : pyTruthy
        (((fsr.find? (fun kv => kv.1 == "__ref")).map (fun kv => kv.2)).getD .null) = true
    swap
    · rw [Bool.not_eq_true] at hrt
      exact ⟨[], by simp [extract_ratings, ratingConnectionRefs, hsf, hrt, pyGetD, pyGet,
        Bind.bind, Except.bind, pure, Except.pure, ratingLoop]⟩
    obtain ⟨conn, hconn, hcg⟩ := storeGetJ_good store h
      (((fsr.find? (fun kv => kv.1 == "__ref")).map (fun kv => kv.2)).getD .null) (.inr hs)
    rcases hcg with hcn | ⟨fsc, hco, hcfs⟩
    · rw [hcn] at hconn
      exact ⟨[], by simp [extract_ratings, ratingConnectionRefs, hsf, hrt, hconn, pyGetD,
        pyGet, pyTruthy, Bind.bind, Except.bind, pure, Except.pure, ratingLoop]⟩
    rw [hco] at hconn
    by_cases htr : pyTruthy (.obj fsc) = true
    swap
    · rw [Bool.not_eq_true] at htr
      exact ⟨[], by simp [extract_ratings, ratingConnectionRefs, hsf, hrt, hconn, htr,
        pyGetD, pyGet, Bind.bind, Except.bind, pure, Except.pure, ratingLoop]⟩
    by_cases hedges : (fsc.any fun kv => kv.1 == "edges") = true
    swap
    · rw [Bool.not_eq_true] at hedges
      exact ⟨[], by simp [extract_ratings, ratingConnectionRefs, hsf, hrt, hconn, htr,
        hedges, pyContains, pyGetD, pyGet, Bind.bind, Except.bind, pure, Except.pure,
        ratingLoop]⟩
    obtain ⟨edgesVal, hfind, hmem⟩ := contains_find fsc "edges" hedges
    have hshape : isObjB edgesVal = true := (fieldsOK2_spec hcfs hmem).1
    obtain ⟨fse, hfse⟩ : ∃ fse, edgesVal = .obj fse := by
      cases hv : edgesVal <;> rw [hv] at hshape <;> simp [isObjB] at hshape
      case obj l => exact ⟨l, rfl⟩
    have hl2 : ∀ kv2 ∈ fse, shapeOK kv2.1 kv2.2 = true :=
      (fieldsOK2_spec hcfs hmem).2 fse hfse
    obtain ⟨elems, helems, hstr⟩ := refs_field_good fse hl2
    obtain ⟨l, hl⟩ := ratingLoop_ok store h elems hstr
    refine ⟨l, ?_⟩
    simp [extract_ratings, ratingConnectionRefs, hsf, hrt, hconn, htr, hedges, hfind,
      hfse, helems, hl, pyContains, pySubscript, pyGetD, pyGet, pyIterate,
      Bind.bind, Except.bind]

/-- Claim C1 (amended): extraction tolerates missing links — absent
store entries, missing fields, falsy references, wrong type tags —
by skipping or treating them as absent, and cannot raise, provided the
store's values are dicts whose link fields have the expected shapes
(`node`, `school`, `edges` and the ratings connection dicts, `__ref` a
string, `__refs` a list of strings, the numeric teacher fields
numbers); a link field of the wrong type (e.g. a non-dict `node`)
raises instead, as the counterexample shows. -/
theorem claim_C1_no_raise (store : Store) (pd : List (String × JValue))
    (h : WFStore store = true) (hpd : fieldsOK2 pd = true) :
    (∃ d, process_professor_search_data store = .ok d) ∧
    (∃ l, extract_ratings store (.obj pd) = .ok l) :=
  ⟨process_search_ok store h, extract_ratings_ok store h pd hpd⟩

/-- A search store whose only edge has a non-dict `node` value. -/
def c1store : Store :=
  [("client:root:newSearch:teachersA",
    .obj [("__typename", .str "TeacherSearchConnectionConnection"),
          ("edges", .obj [("__refs", .arr [.str "e1"])])]),
   ("e1", .obj [("node", .str "notAMapping")])]

/-- A rating store whose only edge has a non-dict `node` value. -/
def c1rstore : Store :=
  [("conn", .obj [("edges", .obj [("__refs", .arr [.str "r1"])])]),
   ("r1", .obj [("node", .str "bad")])]

/-- A teacher record pointing at the `c1rstore` connection. -/
def c1prof : JValue := .obj [("ratings(first:20)", .obj [("__ref", .str "conn")])]

/-- Counterexample to C1 as stated: an edge whose `node` value is a
string — exactly a case the claim says is tolerated — makes both
extractions raise `AttributeError` at `.get`, rather than skip. -/
theorem claim_C1_counterexample :
    process_professor_search_data c1store = .error .attributeError ∧
    extract_ratings c1rstore c1prof = .error .attributeError :=
  ⟨by rfl, by rfl⟩

/-- A well-formed store holding one teacher and one rating connection. -/
def c1goodstore : Store :=
  [("client:root:newSearch:teachersZ",
    .obj [("__typename", .str "TeacherSearchConnectionConnection"),
          ("edges", .obj [("__refs", .arr [.str "e1", .str "dangling"])])]),
   ("e1", .obj [("node", .obj [("__ref", .str "t1")])]),
   ("t1", .obj [("__typename", .str "Teacher"), ("legacyId", .num 5),
                ("firstName", .str "A"), ("lastName", .str "B"),
                ("numRatings", .num 1), ("avgRating", .num 3)]),
   ("rconn", .obj [("edges", .obj [("__refs", .arr [.str "re1"])])]),
   ("re1", .obj [("node", .obj [("__ref", .str "rn1")])]),
   ("rn1", .obj [("__typename", .str "Rating"), ("legacyId", .num 3),
                 ("comment", .str "fine")])]

/-- The teacher-record fields used by the C1 witness. -/
def c1goodprof : List (String × JValue) :=
  [("ratings(first:20)", .obj [("__ref", .str "rconn")])]

/-- Witness for the amended C1 at a concrete well-formed store (with a
dangling edge reference that is skipped, not fatal). -/
theorem claim_C1_witness :
    WFStore c1goodstore = true ∧ fieldsOK2 c1goodprof = true ∧
    ((∃ d, process_professor_search_data c1goodstore = .ok d) ∧
     (∃ l, extract_ratings c1goodstore (.obj c1goodprof) = .ok l)) :=
  ⟨by rfl, by rfl, claim_C1_no_raise c1goodstore c1goodprof (by rfl) (by rfl)⟩
